import Mathlib

/-!
# Verification of the AV-98 Gemini client request engine (`av98.py`)

This file shallowly embeds the parts of `av98.py` that the frozen claims
are about: the response-header parser, the redirect/status dispatch of
`GeminiClient._fetch_over_network`, the pre-flight logic of
`GeminiClient._go_to_gi`, the TTL/LRU response cache, the TOFU certificate
store logic of `_validate_cert`, the history update `_update_history`,
the client-certificate challenge `_handle_cert_request`, and the URL
fixing of `fix_ipv6_url` / `GeminiItem.__init__`.

Python strings are modelled as `List Char` (the decoded code points) or
Lean `String`; byte counts are computed with `Char.utf8Size`.  Python
exceptions are modelled by the `PyErr` type and `Except`.  Stateful
methods of `GeminiClient` become explicit state-passing functions over
`EngineState` / `CacheState` / `TofuState`.  The network is an oracle
`server : String → List Char` mapping a request URL to the raw response
byte stream, and interactive prompts are a record of pre-chosen answers.

Modelling conventions for Python semantics used throughout:
* `str.strip`/`str.split()` treat the ASCII whitespace characters
  (space, tab, newline, carriage return, vertical tab, form feed);
  the embedding restricts attention to this ASCII fragment, which is the
  fragment exercised by all theorems below.
* `str.isnumeric` is modelled on the ASCII fragment as `Char.isDigit`.
* `dict` is modelled as an association list whose keys are kept
  duplicate-free by the update operations (insertion order preserved,
  matching CPython semantics).
* `os.unlink`, `os.path.exists` etc. act on an explicit model of the
  disk: a list of `(filename, contents)` pairs.
-/

/-- Python exceptions that the modelled code can raise. -/
inductive PyErr where
  /-- `RuntimeError(msg)`. -/
  | runtimeError (msg : String)
  /-- `ValueError`, e.g. from unpacking a split of the wrong arity. -/
  | valueError
  /-- `NameError`: reference to an unbound variable. -/
  | nameError
  /-- `KeyError` from indexing a `dict` with a missing key. -/
  | keyError
  /-- `IndexError` from indexing a list out of range. -/
  | indexError
  /-- `AssertionError` from a failing `assert`. -/
  | assertionError
  /-- `FileNotFoundError` / `IOError` from touching a missing file. -/
  | fileNotFoundError
  /-- The client's own `UserAbortException`. -/
  | userAbortException
  /-- Bare `Exception(msg)`. -/
  | exception (msg : String)
  /-- Artefact of the embedding: recursion fuel exhausted (the Python
  code recurses without an explicit bound here). -/
  | fuelExhausted
deriving Repr, DecidableEq

/-- The ASCII whitespace characters recognised by Python's `str.strip()`
and `str.split()` (the embedding's ASCII fragment). -/
def isPySpace (c : Char) : Bool :=
  c = ' ' || c = '\t' || c = '\n' || c = '\r' || c = '\x0b' || c = '\x0c'

/-- `str.isnumeric` for a single character, restricted to the ASCII
fragment of the embedding (ASCII decimal digits). -/
def isPyNumeric (c : Char) : Bool := c.isDigit

/-- UTF-8 encoded size in bytes of a list of code points. -/
def utf8Len (s : List Char) : Nat := (s.map Char.utf8Size).sum

/-- `str.strip()`: drop leading and trailing whitespace. -/
def pyStrip (s : List Char) : List Char :=
  ((s.dropWhile isPySpace).reverse.dropWhile isPySpace).reverse

/-- `f.readline(limit)` on a byte stream: read up to and including the
first `'\n'`, but at most `limit` bytes.  Returns the line read and the
remaining stream.  (A multi-byte character that straddles the byte limit
is left unread; CPython would return the partial bytes and the
subsequent UTF-8 decode would fail — all theorems below evaluate the
model on ASCII streams, where the two behaviours agree.) -/
def pyReadline (limit : Nat) : List Char → List Char × List Char
  | [] => ([], [])
  | c :: rest =>
    if limit < c.utf8Size then ([], c :: rest)
    else if c = '\n' then ([c], rest)
    else
      let (l, r) := pyReadline (limit - c.utf8Size) rest
      (c :: l, r)

/-- `str.split(maxsplit=1)` with the default separator: skip leading
whitespace, take the first maximal run of non-whitespace as the first
token, skip the following whitespace run, and return the remainder
verbatim as the second token (omitted when empty). -/
def pySplit1 (s : List Char) : List (List Char) :=
  let s1 := s.dropWhile isPySpace
  if s1.isEmpty then []
  else
    let tok := s1.takeWhile (fun c => !isPySpace c)
    let rest := (s1.dropWhile (fun c => !isPySpace c)).dropWhile isPySpace
    if rest.isEmpty then [tok] else [tok, rest]

/-- Header reading and validation of `GeminiClient._fetch_over_network`
(av98.py lines 421–434): read at most 1027 bytes of the first line,
require it to end in a newline, strip it, split it into `status` and
`meta` with `split(maxsplit=1)`, and require `len(meta) <= 1024`,
`len(status) == 2` and `status.isnumeric()`.  Returns the parsed
`(status, meta)` pair and the unread remainder of the stream. -/
def parseGeminiHeader (stream : List Char) :
    Except PyErr ((String × String) × List Char) :=
  let (hline, rest) := pyReadline 1027 stream
  if hline = [] || hline.getLast? ≠ some '\n' then
    .error (.runtimeError "Received invalid header from server!")
  else
    let header := pyStrip hline
    match pySplit1 header with
    | [status, meta] =>
      if 1024 < meta.length || status.length ≠ 2 || !status.all isPyNumeric
      then .error (.runtimeError "Received invalid header from server!")
      else .ok ((String.mk status, String.mk meta), rest)
    | _ => .error .valueError

/-- Index of the first occurrence of `pat` in `s`, if any. -/
def findSub (pat : List Char) : List Char → Option Nat
  | [] => if pat = [] then some 0 else none
  | c :: rest =>
    if pat.isPrefixOf (c :: rest) then some 0
    else (findSub pat rest).map (· + 1)

/-- Worker for `splitOnSub`, with explicit fuel (the remaining string
shrinks at every step, so `s.length + 1` fuel always suffices). -/
def splitOnSubAux (pat : List Char) : Nat → List Char → List (List Char)
  | 0, s => [s]
  | fuel + 1, s =>
    match findSub pat s with
    | none => [s]
    | some i => s.take i :: splitOnSubAux pat fuel (s.drop (i + pat.length))

/-- Python `str.split(sep)` for a non-empty separator `sep`: split at
every non-overlapping occurrence, left to right. -/
def splitOnSub (pat s : String) : List String :=
  (splitOnSubAux pat.data (s.data.length + 1) s.data).map String.mk

/-- Python `sub in s` for a substring test. -/
def containsSub (pat s : String) : Bool := (findSub pat.data s.data).isSome

/-- `s.startswith(pat)`, computed on the code-point lists (the builtin
`String.startsWith` is not kernel-reducible). -/
def pyStartsWith (s pat : String) : Bool := pat.data.isPrefixOf s.data

/-- Python `s.count(c)` for a single-character needle. -/
def countChar (c : Char) (s : String) : Nat := s.data.count c

/-- Python `c in s` for a single character. -/
def containsChar (c : Char) (s : String) : Bool := s.data.contains c

/-- Python `s.split(sep, 1)` for a one-character separator: split at the
first occurrence only; `none` when the separator does not occur. -/
def splitFirstChar (c : Char) (s : String) : Option (String × String) :=
  if s.data.contains c then
    some (String.mk (s.data.takeWhile (· ≠ c)),
          String.mk ((s.data.dropWhile (· ≠ c)).tail))
  else none

/-- Split at the first occurrence of the substring `pat`. -/
def splitFirstSub (pat s : String) : Option (String × String) :=
  match findSub pat.data s.data with
  | some i => some (String.mk (s.data.take i),
                    String.mk (s.data.drop (i + pat.data.length)))
  | none => none

/-- Split at the last occurrence of the character `c`. -/
def splitLastChar (c : Char) (s : String) : Option (String × String) :=
  let r := s.data.reverse
  if r.contains c then
    some (String.mk (((r.dropWhile (· ≠ c)).tail).reverse),
          String.mk ((r.takeWhile (· ≠ c)).reverse))
  else none

/-- `fix_ipv6_url` (av98.py lines 100–120): best-effort wrapping of raw
IPv6 hosts in square brackets.  A `url.split("://")` that does not yield
exactly two parts makes the Python tuple unpacking raise `ValueError`,
modelled by the error case. -/
def fix_ipv6_url (url : String) : Except PyErr String :=
  if ¬(2 < countChar ':' url) then .ok url
  else if containsChar '[' url && containsChar ']' url then .ok url
  else if ¬containsChar '/' url then .ok ("[" ++ url ++ "]/")
  else if containsSub "://" url then
    match splitOnSub "://" url with
    | [a, b] =>
      let schemaless :=
        match splitFirstChar '/' b with
        | some (netloc, rest) => "[" ++ netloc ++ "]/" ++ rest
        | none => b
      .ok (if a = "" then schemaless else a ++ "://" ++ schemaless)
    | _ => .error .valueError
  else
    .ok (match splitFirstChar '/' url with
         | some (netloc, rest) => "[" ++ netloc ++ "]/" ++ rest
         | none => url)

/-- The `url` attribute computed by `GeminiItem.__init__` (av98.py lines
129–132): default a missing scheme to `gemini://`, then apply
`fix_ipv6_url`. -/
def geminiItemUrl (url : String) : Except PyErr String :=
  fix_ipv6_url (if containsSub "://" url then url else "gemini://" ++ url)

/-- Lowercase a string (ASCII). -/
def pyLower (s : String) : String := String.mk (s.data.map Char.toLower)

/-- Decompose a URL into `(scheme, netloc, path)`, modelling the fields
of `urllib.parse.urlparse` used by `GeminiItem.__init__` for the URL
shapes the client produces (an optional `scheme://netloc` part followed
by a path and an optional `?query`, which is discarded here). -/
def urlSchemeNetlocPath (u : String) : String × String × String :=
  match splitFirstSub "://" u with
  | some (sch, rest) =>
    let netloc := String.mk (rest.data.takeWhile (fun c => c ≠ '/' && c ≠ '?'))
    let tail := rest.data.drop netloc.data.length
    (pyLower sch, netloc, String.mk (tail.takeWhile (· ≠ '?')))
  | none => ("", "", String.mk (u.data.takeWhile (· ≠ '?')))

/-- Numeric value of a list of ASCII digits. -/
def digitsToNat (l : List Char) : Nat :=
  l.foldl (fun a c => a * 10 + (c.toNat - 48)) 0

/-- `urlparse(...).hostname`: the host part of a netloc, brackets
stripped for IPv6 literals, the port removed, lowercased. -/
def netlocHost (netloc : String) : String :=
  if pyStartsWith netloc "[" then
    pyLower (String.mk ((netloc.data.drop 1).takeWhile (· ≠ ']')))
  else
    match splitLastChar ':' netloc with
    | some (h, p) => if p.data ≠ [] && p.data.all Char.isDigit then pyLower h
                     else pyLower netloc
    | none => pyLower netloc

/-- `urlparse(...).port`: the numeric port of a netloc, if present. -/
def netlocPort (netloc : String) : Option Nat :=
  let tail := if pyStartsWith netloc "[" then
                String.mk ((netloc.data.dropWhile (· ≠ ']')).tail)
              else netloc
  match splitLastChar ':' tail with
  | some (_, p) => if p.data ≠ [] && p.data.all Char.isDigit
                   then some (digitsToNat p.data) else none
  | none => none

/-- The `standard_ports` dictionary (av98.py lines 122–125); `none`
models a `KeyError` on direct indexing. -/
def standard_ports (scheme : String) : Option Nat :=
  if scheme = "gemini" then some 1965
  else if scheme = "gopher" then some 70
  else none

/-- A `GeminiItem` object.  `oid` is the CPython object identity (the
class defines no `__eq__`, so `==` on `GeminiItem`s compares `oid`). -/
structure PyGI where
  url : String
  name : String
  scheme : String
  host : String   -- `""` models `None` (no host: local file)
  port : Nat
  path : String
  oid : Nat
deriving Repr, DecidableEq

/-- `GeminiItem.__init__` (av98.py lines 129–138): compute the fixed
URL, then derive scheme, host, port and path from it.  `oid` is the
identity of the freshly allocated object. -/
def mkGeminiItemE (oid : Nat) (url name : String) : Except PyErr PyGI :=
  match geminiItemUrl url with
  | .error e => .error e
  | .ok u =>
    let (scheme, netloc, path) := urlSchemeNetlocPath u
    let port :=
      match netlocPort netloc with
      | some p => if p = 0 then (standard_ports scheme).getD 0 else p
      | none => (standard_ports scheme).getD 0
    .ok ⟨u, name, scheme, netlocHost netloc, port, path, oid⟩

/-- `GeminiItem.absolutise_url`, i.e. `urllib.parse.urljoin`, modelled
for the reference shapes the client meets: an empty reference keeps the
base, an absolute reference replaces it, a root-relative reference
replaces the path, and any other reference is resolved against the
directory of the base path (no `..` processing). -/
def pyUrljoin (base rel : String) : String :=
  if rel = "" then base
  else if containsSub "://" rel then rel
  else
    let (scheme, netloc, path) := urlSchemeNetlocPath base
    let sn := scheme ++ "://" ++ netloc
    if pyStartsWith rel "/" then sn ++ rel
    else
      let dir := match splitLastChar '/' path with
                 | some (before, _) => before ++ "/"
                 | none => "/"
      sn ++ dir ++ rel

/-- UTF-8 bytes of one code point. -/
def utf8Bytes (c : Char) : List Nat :=
  let n := c.toNat
  if n < 0x80 then [n]
  else if n < 0x800 then [0xC0 + n / 64, 0x80 + n % 64]
  else if n < 0x10000 then
    [0xE0 + n / 4096, 0x80 + (n / 64) % 64, 0x80 + n % 64]
  else
    [0xF0 + n / 262144, 0x80 + (n / 4096) % 64, 0x80 + (n / 64) % 64,
     0x80 + n % 64]

/-- Uppercase hexadecimal digit. -/
def hexDigitChar (n : Nat) : Char :=
  if n < 10 then Char.ofNat (48 + n) else Char.ofNat (55 + n)

/-- Characters `urllib.parse.quote` leaves unescaped (unreserved
characters plus the default safe character `/`). -/
def isQuoteSafe (c : Char) : Bool :=
  c.isAlphanum || c = '_' || c = '.' || c = '-' || c = '~' || c = '/'

/-- `urllib.parse.quote`: percent-encode everything but the safe set. -/
def pyQuote (s : String) : String :=
  String.mk ((s.data.map (fun c =>
    if isQuoteSafe c then [c]
    else ((utf8Bytes c).map
      (fun b => ['%', hexDigitChar (b / 16), hexDigitChar (b % 16)])).flatten)).flatten)

/-- `GeminiItem._derive_url` (av98.py lines 157–164): rebuild the URL
from the parsed components, omitting the port when it is the scheme's
standard port.  Indexing `standard_ports` with an unknown scheme raises
`KeyError`. -/
def derive_url (gi : PyGI) (path query : String) : Except PyErr String :=
  match standard_ports gi.scheme with
  | none => .error .keyError
  | some sp =>
    let netloc := if gi.port = sp then gi.host
                  else gi.host ++ ":" ++ toString gi.port
    let p := if path = "" then gi.path else path
    .ok (gi.scheme ++ "://" ++ netloc ++ p ++
         (if query = "" then "" else "?" ++ query))

/-- `GeminiItem.query` (av98.py lines 153–155): percent-encode the query
and build a fresh `GeminiItem` (a new object, hence a fresh `oid`). -/
def giQuery (oid : Nat) (gi : PyGI) (q : String) : Except PyErr PyGI :=
  match derive_url gi "" (pyQuote q) with
  | .error e => .error e
  | .ok u => mkGeminiItemE oid u ""

/- ### The response cache (av98.py lines 639–701) -/

/-- Look up a key in an association list (Python `d[k]` / `d.get(k)`). -/
def alistGet {β : Type} (k : String) (l : List (String × β)) : Option β :=
  match l.find? (fun e => e.1 = k) with
  | some e => some e.2
  | none => none

/-- Python `d[k] = v`: replace in place when the key exists (insertion
order is preserved), append otherwise. -/
def alistSet {β : Type} (k : String) (v : β) (l : List (String × β)) :
    List (String × β) :=
  if (l.find? (fun e => e.1 = k)).isSome then
    l.map (fun e => if e.1 = k then (k, v) else e)
  else l ++ [(k, v)]

/-- Python `d.pop(k)`: the removed value and the remaining list. -/
def alistPop {β : Type} (k : String) (l : List (String × β)) :
    Option (β × List (String × β)) :=
  match alistGet k l with
  | some v => some (v, l.filter (fun e => e.1 ≠ k))
  | none => none

/-- The client state touched by the cache methods: the two dictionaries
`self.cache : url → (mime, filename)` and `self.cache_timestamps :
url → timestamp`, the disk (a set of `(filename, contents)` pairs) and
the `cache_hits` counter of `self.log`. -/
structure CacheState where
  cache : List (String × (String × String))
  cache_timestamps : List (String × Int)
  disk : List (String × String)
  cache_hits : Nat
deriving Repr, DecidableEq

/-- `os.path.exists` / `os.path.isfile` on the modelled disk. -/
def fileExists (st : CacheState) (filename : String) : Bool :=
  st.disk.any (fun f => f.1 = filename)

/-- `os.unlink`; the Python call raises when the file is missing, which
callers below check first where the source does. -/
def unlinkFile (st : CacheState) (filename : String) : CacheState :=
  { st with disk := st.disk.filter (fun f => f.1 ≠ filename) }

/-- The checks of `GeminiClient._validate_cache` (av98.py lines
698–701): the two dictionaries have the same key sets and every
referenced file exists on disk. -/
def validate_cache (st : CacheState) : Bool :=
  (st.cache.all (fun e => (alistGet e.1 st.cache_timestamps).isSome)) &&
  (st.cache_timestamps.all (fun e => (alistGet e.1 st.cache).isSome)) &&
  (st.cache.all (fun e => fileExists st e.2.2))

/-- `GeminiClient._remove_from_cache` (av98.py lines 651–655): pop the
entry from both dictionaries, unlink its file, re-validate.  Missing
keys raise `KeyError`; a missing file raises `FileNotFoundError`; a
failing validation raises `AssertionError`. -/
def remove_from_cache (url : String) (st : CacheState) :
    Except PyErr CacheState :=
  match alistPop url st.cache_timestamps with
  | none => .error .keyError
  | some (_, ts') =>
    match alistPop url st.cache with
    | none => .error .keyError
    | some ((_, filename), c') =>
      if ¬fileExists st filename then .error .fileNotFoundError
      else
        let st' := unlinkFile { st with cache := c', cache_timestamps := ts' }
          filename
        if validate_cache st' then .ok st' else .error .assertionError

/-- `GeminiClient._is_cached` (av98.py lines 639–649): absent keys
report `false`; an entry older than `_MAX_CACHE_AGE_SECS = 180` seconds
is evicted and reported `false`; otherwise `true`. -/
def is_cached (now : Int) (url : String) (st : CacheState) :
    Except PyErr (CacheState × Bool) :=
  if (alistGet url st.cache).isNone then .ok (st, false)
  else
    match alistGet url st.cache_timestamps with
    | none => .error .keyError
    | some cached =>
      if 180 < now - cached then
        match remove_from_cache url st with
        | .error e => .error e
        | .ok st' => .ok (st', false)
      else .ok (st, true)

/-- The eviction loop of `GeminiClient._trim_cache` over the tail of the
LRU list: drop entries older than the limit, stopping at the first
fresh one. -/
def trimLoop (now : Int) : List (Int × String) → CacheState →
    Except PyErr CacheState
  | [], st => .ok st
  | (t, u) :: rest, st =>
    if 180 < now - t then
      match remove_from_cache u st with
      | .error e => .error e
      | .ok st' => trimLoop now rest st'
    else .ok st

/-- The comparison `sort()` uses on the `(timestamp, url)` pairs of the
LRU list (Python tuple ordering). -/
def lruLe (a b : Int × String) : Prop :=
  a.1 < b.1 ∨ (a.1 = b.1 ∧ a.2 ≤ b.2)

instance : DecidableRel lruLe := fun a b => by
  unfold lruLe; infer_instance

/-- `GeminiClient._trim_cache` (av98.py lines 665–681): order the cache
entries by age, unconditionally drop the oldest (`lru[0]`; an empty
cache would raise `IndexError`), then drop further stale entries, and
re-validate. -/
def trim_cache (now : Int) (st : CacheState) : Except PyErr CacheState :=
  let lru := (st.cache_timestamps.map (fun e => (e.2, e.1))).insertionSort lruLe
  match lru with
  | [] => .error .indexError
  | (_, u) :: rest =>
    match remove_from_cache u st with
    | .error e => .error e
    | .ok st' =>
      match trimLoop now rest st' with
      | .error e => .error e
      | .ok st'' =>
        if validate_cache st'' then .ok st'' else .error .assertionError

/-- `GeminiClient._add_to_cache` (av98.py lines 657–663): record the
timestamp and the `(mime, filename)` pair, trim when the cache exceeds
`_MAX_CACHE_SIZE = 10` entries, re-validate. -/
def add_to_cache (now : Int) (url mime filename : String) (st : CacheState) :
    Except PyErr CacheState :=
  let st1 := { st with
    cache_timestamps := alistSet url now st.cache_timestamps
    cache := alistSet url (mime, filename) st.cache }
  match (if 10 < st1.cache.length then trim_cache now st1 else .ok st1) with
  | .error e => .error e
  | .ok st2 =>
    if validate_cache st2 then .ok st2 else .error .assertionError

/-- `GeminiClient._get_cached` (av98.py lines 683–691): return the mime
type and filename, re-reading the body from disk for `text/gemini`
resources (a missing file would raise) and bumping the hit counter. -/
def get_cached (url : String) (st : CacheState) :
    Except PyErr (CacheState × (String × Option String × String)) :=
  match alistGet url st.cache with
  | none => .error .keyError
  | some (mime, filename) =>
    let st' := { st with cache_hits := st.cache_hits + 1 }
    if pyStartsWith mime "text/gemini" then
      match alistGet filename st.disk with
      | some body => .ok (st', (mime, some body, filename))
      | none => .error .fileNotFoundError
    else .ok (st', (mime, none, filename))

/-- `GeminiClient._empty_cache` (av98.py lines 693–696): unlink every
cached file that still exists.  The two dictionaries are left untouched
by the source. -/
def empty_cache (st : CacheState) : CacheState :=
  { st with
    disk := st.disk.filter (fun f => !(st.cache.any (fun e => e.2.2 = f.1))) }

/-- The cache retrieval path of `GeminiClient._go_to_gi` (av98.py lines
338–339): consult `_is_cached` and, on a hit, serve via `_get_cached`. -/
def cache_retrieve (now : Int) (url : String) (st : CacheState) :
    Except PyErr (CacheState × Option (String × Option String × String)) :=
  match is_cached now url st with
  | .error e => .error e
  | .ok (st', hit) =>
    if hit then
      match get_cached url st' with
      | .error e => .error e
      | .ok (st'', r) => .ok (st'', some r)
    else .ok (st', none)

/- ### The TOFU trust store (av98.py lines 745–866) -/

/-- One row of the `cert_cache` table. -/
structure TofuRow where
  hostname : String
  address : String
  fingerprint : String
  first_seen : Int
  last_seen : Int
  count : Int
deriving Repr, DecidableEq

/-- The persistent TOFU state: the `cert_cache` table rows (in insertion
order, as returned by `fetchall`) and the fingerprints whose DER blobs
exist under `cert_cache/<fingerprint>.crt`. -/
structure TofuState where
  rows : List TofuRow
  certFiles : List String
deriving Repr, DecidableEq

/-- The database portion of `GeminiClient._validate_cert` (av98.py lines
796–866).  The certificate-date and hostname checks of the optional
`cryptography` module (lines 760–790) sit before this logic and do not
touch the table; they are outside the modelled claims.  Parameters:
`hasCrypto` is `_HAS_CRYPTOGRAPHY`; `accepts` is the user's answer to
the unrecognised-certificate prompt.  Returns the new state and the
exception raised, if any — note that the source commits its inserts
before the points where it can later raise, so the state is returned
even alongside an error.  In the mismatch path, without `cryptography`
the accepted INSERT is followed by `open(os.path.join(certdir, ...))`
where `certdir` is only bound under `_HAS_CRYPTOGRAPHY` (line 823), so
the write raises `NameError` after the commit; with `cryptography` a
missing blob for the most-frequent prior fingerprint raises when it is
re-read (line 824). -/
def tofu_record (hasCrypto : Bool) (now : Int) (accepts : Bool)
    (host addr fp : String) (st : TofuState) : TofuState × Option PyErr :=
  let cached := st.rows.filter
    (fun r => r.hostname = host && r.address = addr)
  if cached.isEmpty then
    ({ rows := st.rows ++ [⟨host, addr, fp, now, now, 1⟩],
       certFiles := st.certFiles ++ [fp] }, none)
  else
    match cached.find? (fun r => r.fingerprint = fp) with
    | some r =>
      ({ st with rows := st.rows.map (fun q =>
          if q.hostname = host && q.address = addr && q.fingerprint = fp
          then { q with last_seen := now, count := r.count + 1 } else q) },
       none)
    | none =>
      let mf := (cached.foldl
        (fun acc r => if acc.1 < r.count then (r.count, some r.fingerprint)
                      else acc) ((0 : Int), (none : Option String))).2
      if hasCrypto &&
         !(match mf with
           | some f => st.certFiles.contains f
           | none => false) then
        (st, some .fileNotFoundError)
      else if accepts then
        let st' := { st with rows := st.rows ++ [⟨host, addr, fp, now, now, 1⟩] }
        if hasCrypto then
          ({ st' with certFiles := st'.certFiles ++ [fp] }, none)
        else (st', some .nameError)
      else (st, some (.exception "TOFU Failure!"))

/-- At most one table row per `(hostname, address, fingerprint)` triple
(true of any table grown by `tofu_record` from empty, since an insert
only happens when the fingerprint matched no row of the pair). -/
def tofuNoDupTriples : List TofuRow → Bool
  | [] => true
  | r :: rest =>
    !(rest.any (fun q => q.hostname = r.hostname && q.address = r.address &&
                         q.fingerprint = r.fingerprint)) &&
    tofuNoDupTriples rest

/- ### History, certificate challenge, and the request engine -/

/-- The navigation history: `self.history` and `self.hist_index`. -/
structure HistState where
  history : List PyGI
  hist_index : Nat
deriving Repr, DecidableEq

/-- `GeminiClient._update_history` (av98.py lines 946–952).  The guard
`self.history[self.hist_index] == gi` compares `GeminiItem`s with the
default `object.__eq__`, i.e. object identity, modelled by `oid`
equality.  An index outside a non-empty list would raise `IndexError`
(with a non-empty history the slice below never raises). -/
def update_history (st : HistState) (gi : PyGI) : Except PyErr HistState :=
  if st.history.isEmpty then .ok ⟨[gi], 0⟩
  else
    match st.history.get? st.hist_index with
    | none => .error .indexError
    | some cur =>
      if cur.oid = gi.oid then .ok st
      else
        let h := st.history.take (st.hist_index + 1) ++ [gi]
        .ok ⟨h, h.length - 1⟩

/-- `GeminiClient._handle_cert_request` (av98.py lines 703–743).  In
restricted mode it raises `UserAbortException` (lines 708–711).
Otherwise, after printing the server's message, line 716 evaluates
`if status in ("64", "65")` — but `status` is bound neither in the
function nor globally (the same holds for `gi` on line 722), so every
non-restricted call raises `NameError` before the challenge menu is
reached. -/
def handle_cert_request (restricted : Bool) (_meta : String) :
    Except PyErr Unit :=
  if restricted then .error .userAbortException
  else .error .nameError

/-- The interactive answers a run of the engine may consume. -/
structure UserPrompts where
  inputLine : String
  followRedirect : Bool
  destroyTransient : Bool
  deactivateCert : Bool
  reactivateCert : Bool
deriving Repr, DecidableEq

/-- The `GeminiClient` state the request engine reads and writes,
together with the observable effects of a run (`sends` records each URL
handed to `_send_request`, `handlerCalls` each handler dispatch). -/
structure EngineState where
  previous_redirectors : List String
  permanent_redirects : List (String × String)
  cacheSt : CacheState
  history : List PyGI
  hist_index : Nat
  nextOid : Nat
  nextTmp : Nat
  sends : List String
  handlerCalls : List (String × String)
  tmp_filename : String
  currentGi : Option PyGI
  currentMime : String
  restricted : Bool
  optCache : Bool
  optAutoFollow : Bool
  optGopherProxy : Option String
  certActive : Bool
  activeCertDomains : List String
  activeIsTransient : Bool
  certHosts : List String
  now : Int
deriving Repr, DecidableEq

/-- `GeminiClient._deactivate_client_cert` (av98.py lines 1072–1081);
the on-disk deletion of transient certificate files is outside the
modelled claims. -/
def deactivate_client_cert (st : EngineState) : EngineState :=
  { st with
    certHosts := if st.activeIsTransient then
        st.certHosts.filter (fun h => ¬ st.activeCertDomains.contains h)
      else st.certHosts,
    certActive := false, activeCertDomains := [], activeIsTransient := false }

/-- The client-certificate pre-flight of `_fetch_over_network` (av98.py
lines 384–413): the cross-domain guard for an active identity and the
re-activation offer for a previously used one. -/
def certGuardStep (pr : UserPrompts) (st : EngineState) (gi : PyGI) :
    EngineState × Option PyErr :=
  let (st1, abort?) :=
    if !st.activeCertDomains.isEmpty &&
       !(st.activeCertDomains.contains gi.host) then
      if st.activeIsTransient then
        if pr.destroyTransient then (deactivate_client_cert st, none)
        else (st, some PyErr.userAbortException)
      else
        if pr.deactivateCert then (deactivate_client_cert st, none)
        else (st, none)
    else (st, none)
  match abort? with
  | some e => (st1, some e)
  | none =>
    if !st1.certActive && st1.certHosts.contains gi.host then
      if pr.reactivateCert then
        ({ st1 with certActive := true, activeCertDomains := [] }, none)
      else ({ st1 with certHosts := st1.certHosts.filter (· ≠ gi.host) }, none)
    else (st1, none)

/-- Obtaining the response byte stream (av98.py lines 415–419): a local
file for a host-less item, otherwise `_send_request`.  The DNS/TLS
transport and the TOFU validation it performs are abstracted by the
`server` oracle (the TOFU table logic is modelled by `tofu_record`);
`_send_request` also records the active identity against the host
(lines 610–613). -/
def acquireStream (server : String → List Char) (st : EngineState)
    (gi : PyGI) : EngineState × Except PyErr (List Char) :=
  if gi.host = "" then
    match alistGet gi.path st.cacheSt.disk with
    | some content => (st, .ok content.data)
    | none => (st, .error .fileNotFoundError)
  else
    let st := { st with sends := st.sends ++ [gi.url] }
    let st := if st.certActive then
        { st with
          activeCertDomains := st.activeCertDomains ++ [gi.host],
          certHosts := if st.certHosts.contains gi.host then st.certHosts
                       else st.certHosts ++ [gi.host] }
      else st
    (st, .ok (server gi.url))

/-- `cgi.parse_header` applied to the meta field (av98.py lines
497–500): default an empty meta to `text/gemini; charset=utf-8` and keep
the main (stripped) value.  The charset parameters are not needed by the
claims; the `codecs.lookup` check is modelled as always succeeding. -/
def mimeMain (meta : String) : String :=
  let m := if meta = "" then "text/gemini; charset=utf-8" else meta
  match splitFirstChar ';' m with
  | some (a, _) => String.mk (pyStrip a.data)
  | none => String.mk (pyStrip m.data)

/-- The 2x tail of `_fetch_over_network` (av98.py lines 495–534): decode
the body (identity on the modelled ASCII fragment), write it to a fresh
temporary file, add it to the cache when caching is enabled, and return
`(gi, mime, body, tmpfile)`.  The statistics of `_log_visit` are outside
the modelled claims. -/
def successStep (st : EngineState) (gi : PyGI) (meta : String)
    (bodyChars : List Char) :
    EngineState × Except PyErr (PyGI × String × String × String) :=
  let mime := mimeMain meta
  let body := String.mk bodyChars
  let fname := "tmpfile" ++ toString st.nextTmp
  let st := { st with
    cacheSt := { st.cacheSt with disk := st.cacheSt.disk ++ [(fname, body)] },
    nextTmp := st.nextTmp + 1,
    tmp_filename := fname }
  if st.optCache then
    match add_to_cache st.now gi.url mime fname st.cacheSt with
    | .ok c => ({ st with cacheSt := c }, .ok (gi, mime, body, fname))
    | .error e => (st, .error e)
  else (st, .ok (gi, mime, body, fname))

/-- The redirect acceptance checks of `_fetch_over_network` (av98.py
lines 453–475): reject a self-redirect, a target already in
`previous_redirectors`, and a chain that already holds
`_MAX_REDIRECTS = 5` entries; prompt for cross-host, cross-scheme or
non-auto-followed redirects; on acceptance add the source URL to the
set. -/
def redirectCheck (pr : UserPrompts) (st : EngineState) (gi ngi : PyGI) :
    Except PyErr EngineState :=
  if ngi.url = gi.url then .error (.runtimeError "URL redirects to itself!")
  else if st.previous_redirectors.contains ngi.url then
    .error (.runtimeError "Caught in redirect loop!")
  else if st.previous_redirectors.length = 5 then
    .error (.runtimeError
      "Refusing to follow more than 5 consecutive redirects!")
  else
    let follow :=
      if ngi.host ≠ gi.host then pr.followRedirect
      else if ngi.scheme ≠ gi.scheme then pr.followRedirect
      else if ¬ st.optAutoFollow then pr.followRedirect
      else true
    if ¬ follow then .error .userAbortException
    else .ok { st with previous_redirectors :=
      if st.previous_redirectors.contains gi.url then st.previous_redirectors
      else st.previous_redirectors ++ [gi.url] }

/-- `GeminiClient._fetch_over_network` (av98.py lines 382–534): the
status state machine.  The Python method recurses without a bound on
1x/6x, so the model carries fuel; `PyErr.fuelExhausted` marks the
artificial cut-off. -/
def fetch_over_network (server : String → List Char) (pr : UserPrompts) :
    Nat → EngineState → PyGI →
    EngineState × Except PyErr (PyGI × String × String × String)
  | 0, st, _ => (st, .error .fuelExhausted)
  | fuel + 1, st, gi =>
    match certGuardStep pr st gi with
    | (st, some e) => (st, .error e)
    | (st, none) =>
      match acquireStream server st gi with
      | (st, .error e) => (st, .error e)
      | (st, .ok stream) =>
        match parseGeminiHeader stream with
        | .error e => (st, .error e)
        | .ok ((status, meta), rest) =>
          let st := if ¬ pyStartsWith status "3" then
              { st with previous_redirectors := [] }
            else st
          if pyStartsWith status "1" then
            match giQuery st.nextOid gi pr.inputLine with
            | .error e => (st, .error e)
            | .ok ngi =>
              fetch_over_network server pr fuel
                { st with nextOid := st.nextOid + 1 } ngi
          else if pyStartsWith status "3" then
            match mkGeminiItemE st.nextOid (pyUrljoin gi.url meta) "" with
            | .error e => (st, .error e)
            | .ok ngi =>
              let st := { st with nextOid := st.nextOid + 1 }
              match redirectCheck pr st gi ngi with
              | .error e => (st, .error e)
              | .ok st =>
                let st := if status = "31" then
                    { st with permanent_redirects :=
                        alistSet gi.url ngi.url st.permanent_redirects }
                  else st
                fetch_over_network server pr fuel st ngi
          else if pyStartsWith status "4" || pyStartsWith status "5" then
            (st, .error (.runtimeError meta))
          else if pyStartsWith status "6" then
            match handle_cert_request st.restricted meta with
            | .error e => (st, .error e)
            | .ok _ => fetch_over_network server pr fuel st gi
          else if ¬ pyStartsWith status "2" then
            (st, .error (.runtimeError
              ("Server returned undefined status code " ++ status ++ "!")))
          else
            successStep st gi meta rest

/-- Observable outcome of one `_go_to_gi` call. -/
inductive GoOutcome where
  | openedBrowser (url : String)
  | gopherRefused
  | noSupport (scheme : String)
  | done
  | aborted
  | errorPrinted (e : PyErr)
  | raised (e : PyErr)
  | fuelExhausted
deriving Repr, DecidableEq

/-- The tail of `_go_to_gi` (av98.py lines 364–380): handler dispatch
(the text/gemini renderer `_handle_gemtext` is outside the modelled
claims; its invocation is recorded as an effect), then the `self.gi` /
`self.mime` update and, unless opted out, the history update. -/
def finishStep (st : EngineState) (gi : PyGI) (mime : String)
    (body? : Option String) (path : String) (update_hist handle : Bool) :
    EngineState × GoOutcome :=
  let st := if handle then
      if mime = "text/gemini" then
        { st with handlerCalls :=
            st.handlerCalls ++ [("text/gemini", body?.getD "")] }
      else
        { st with handlerCalls := st.handlerCalls ++ [(mime, path)] }
    else st
  let st := { st with currentGi := some gi, currentMime := mime }
  if update_hist then
    match update_history ⟨st.history, st.hist_index⟩ gi with
    | .error e => (st, .raised e)
    | .ok h =>
      ({ st with history := h.history, hist_index := h.hist_index }, .done)
  else (st, .done)

/-- `GeminiClient._go_to_gi` (av98.py lines 310–380): scheme routing,
the permanent-redirect short-circuit (note the recursive call on line
334 passes none of the caller's options), the cache consultation, the
network fetch with its exception handling, and the finishing steps. -/
def go_to_gi (server : String → List Char) (pr : UserPrompts) :
    Nat → EngineState → PyGI → Bool → Bool → Bool →
    EngineState × GoOutcome
  | 0, st, _, _, _, _ => (st, .fuelExhausted)
  | fuel + 1, st, gi, update_hist, check_cache, handle =>
    if gi.scheme = "http" || gi.scheme = "https" then
      (st, .openedBrowser gi.url)
    else if gi.scheme = "gopher" && st.optGopherProxy.isNone then
      (st, .gopherRefused)
    else if ¬(gi.scheme = "gemini" || gi.scheme = "gopher") then
      (st, .noSupport gi.scheme)
    else
      match alistGet gi.url st.permanent_redirects with
      | some dest =>
        match mkGeminiItemE st.nextOid dest gi.name with
        | .error e => (st, .raised e)
        | .ok ngi =>
          go_to_gi server pr fuel { st with nextOid := st.nextOid + 1 } ngi
            true true true
      | none =>
        let cacheRes : Except PyErr
            (EngineState × Option (String × Option String × String)) :=
          if check_cache && st.optCache then
            match cache_retrieve st.now gi.url st.cacheSt with
            | .error e => .error e
            | .ok (c, r) => .ok ({ st with cacheSt := c }, r)
          else .ok (st, none)
        match cacheRes with
        | .error e => (st, .raised e)
        | .ok (st, some (mime, body?, path)) =>
          finishStep st gi mime body? path update_hist handle
        | .ok (st, none) =>
          match fetch_over_network server pr fuel st gi with
          | (st, .error .userAbortException) => (st, .aborted)
          | (st, .error .fuelExhausted) => (st, .fuelExhausted)
          | (st, .error e) => (st, .errorPrinted e)
          | (st, .ok (gi', mime, body, path)) =>
            finishStep st gi' mime (some body) path update_hist handle

/- ### Concrete fixtures used by examples and witness theorems -/

/-- The empty cache over an empty disk. -/
def emptyCache : CacheState := ⟨[], [], [], 0⟩

/-- A fresh client state: the fields `GeminiClient.__init__` sets, with
caching off, auto-follow on, non-restricted mode. -/
def egState : EngineState where
  previous_redirectors := []
  permanent_redirects := []
  cacheSt := emptyCache
  history := []
  hist_index := 0
  nextOid := 0
  nextTmp := 0
  sends := []
  handlerCalls := []
  tmp_filename := ""
  currentGi := none
  currentMime := ""
  restricted := false
  optCache := false
  optAutoFollow := true
  optGopherProxy := none
  certActive := false
  activeCertDomains := []
  activeIsTransient := false
  certHosts := []
  now := 0

/-- A user who answers yes to everything and types nothing. -/
def egPrompts : UserPrompts := ⟨"", true, true, true, true⟩

/-- A raw Gemini response stream: `<status> <meta>\r\n<body>`. -/
def rawResponse (status meta body : String) : List Char :=
  (status ++ " " ++ meta ++ "\r\n" ++ body).data

/-- The scenario-S3 server: `gemini://a/x` permanently redirects to
`gemini://b/y`, which succeeds; everything else fails. -/
def s3server (u : String) : List Char :=
  if u = "gemini://a/x" then rawResponse "31" "gemini://b/y" ""
  else if u = "gemini://b/y" then rawResponse "20" "text/plain" "ok"
  else rawResponse "51" "not found" ""

/-- The item `GeminiItem("gemini://a/x")` with identity 0. -/
def giAX : PyGI := ⟨"gemini://a/x", "", "gemini", "a", 1965, "/x", 0⟩

/-- The redirect target the engine would derive from the server's
response to `u`: the fixed URL of `GeminiItem(gi.absolutise_url(meta))`,
when the response is a 3x. -/
def redirTarget (server : String → List Char) (u : String) : Option String :=
  match parseGeminiHeader (server u) with
  | .ok ((s, m), _) =>
    if pyStartsWith s "3" then (geminiItemUrl (pyUrljoin u m)).toOption
    else none
  | .error _ => none

/-- Length of the consecutive-3x chain the server serves starting at
`u` (cut off by fuel). -/
def chainLen (server : String → List Char) : Nat → String → Nat
  | 0, _ => 0
  | fuel + 1, u =>
    match redirTarget server u with
    | some v => chainLen server fuel v + 1
    | none => 0

/-- Well-formedness of the cache state (everything of claim C5 except
the size bound): both dictionaries have duplicate-free key lists and the
same keys, every referenced file exists, and distinct entries reference
distinct files (true of the engine, which caches only freshly created
temporary files). -/
def CacheWF (st : CacheState) : Prop :=
  (st.cache.map (fun e => e.1)).Nodup ∧
  (st.cache_timestamps.map (fun e => e.1)).Nodup ∧
  (∀ e ∈ st.cache, (alistGet e.1 st.cache_timestamps).isSome) ∧
  (∀ e ∈ st.cache_timestamps, (alistGet e.1 st.cache).isSome) ∧
  (∀ e ∈ st.cache, fileExists st e.2.2 = true) ∧
  (st.cache.map (fun e => e.2.2)).Nodup

instance : DecidablePred CacheWF := fun st => by
  unfold CacheWF; infer_instance

/-- The full cache invariant of claim C5: well-formed and at most
`_MAX_CACHE_SIZE = 10` entries. -/
def CacheInv (st : CacheState) : Prop := CacheWF st ∧ st.cache.length ≤ 10

instance : DecidablePred CacheInv := fun st => by
  unfold CacheInv; infer_instance

/-- A one-entry cache over a one-file disk. -/
def cacheFix : CacheState :=
  ⟨[("gemini://h/a", ("text/gemini", "f1"))], [("gemini://h/a", 0)],
   [("f1", "body")], 0⟩

/-- A server that always requests a client certificate. -/
def server60 (_u : String) : List Char :=
  rawResponse "60" "Certificate required" ""

/-- A server whose response header separates status and meta with a tab
character instead of a space. -/
def serverTab (_u : String) : List Char := "20\ttext/plain\r\nhello".data

/-- `GeminiItem("gemini://x/")`, allocated first (identity 0). -/
def giX0 : PyGI := ⟨"gemini://x/", "", "gemini", "x", 1965, "/", 0⟩

/-- A second, distinct `GeminiItem("gemini://x/")` for the same URL
(identity 1): Python compares the two objects unequal. -/
def giX1 : PyGI := ⟨"gemini://x/", "", "gemini", "x", 1965, "/", 1⟩

/-- A TOFU store holding one row for host `h`. -/
def tofuFix : TofuState :=
  ⟨[⟨"h", "192.0.2.1", "f1", 0, 5, 3⟩], ["f1"]⟩

/-! ### Sanity checks of the embedding on concrete inputs -/

example :
    parseGeminiHeader "20 text/gemini\r\nhello".data =
      .ok (("20", "text/gemini"), "hello".data) := by rfl

example :
    parseGeminiHeader "20\ttext/plain\r\nhello".data =
      .ok (("20", "text/plain"), "hello".data) := by rfl

example :
    parseGeminiHeader "20 text/gemini".data =
      .error (.runtimeError "Received invalid header from server!") := by rfl

example : parseGeminiHeader "20\r\n".data = .error .valueError := by rfl

example : geminiItemUrl "::1" = .ok "gemini://::1" := by rfl

example : geminiItemUrl "gemini://::1:1965/foo" = .ok "gemini://[::1:1965]/foo" := by rfl

example : geminiItemUrl "example.com/x" = .ok "gemini://example.com/x" := by rfl

example :
    mkGeminiItemE 7 "gemini://Example.com:1966/a/b?q" "Nice" =
      .ok ⟨"gemini://Example.com:1966/a/b?q", "Nice", "gemini", "example.com",
           1966, "/a/b", 7⟩ := by rfl

example : pyUrljoin "gemini://h/a/b" "gemini://x/y" = "gemini://x/y" := by rfl

example : pyUrljoin "gemini://h/a/b" "/c" = "gemini://h/c" := by rfl

example : pyUrljoin "gemini://h/a/b" "c" = "gemini://h/a/c" := by rfl

example : mkGeminiItemE 0 "gemini://a/x" "" = .ok giAX := by rfl

example :
    (fetch_over_network s3server egPrompts 5 egState giAX).1.sends =
      ["gemini://a/x", "gemini://b/y"] := by rfl

example :
    alistGet "gemini://a/x"
      (fetch_over_network s3server egPrompts 5 egState giAX).1.permanent_redirects
      = some "gemini://b/y" := by rfl

/-! ### Claim C9: raw IPv6 bracketing -/

/-- Claim C9 as stated is false: constructing a resource reference from
`"::1"` yields `"gemini://::1"`, not `"gemini://[::1]/"` — after the
scheme is prepended the URL contains slashes, and the schemaless part
`"::1"` contains none, so `fix_ipv6_url` adds no brackets. -/
theorem c9_counterexample :
    geminiItemUrl "::1" = .ok "gemini://::1" ∧
    ("gemini://::1" : String) ≠ "gemini://[::1]/" :=
  ⟨rfl, by decide⟩

/-- Claim C9, amended: `"::1"` becomes `"gemini://::1"` (unchanged);
`"gemini://::1:1965/foo"` becomes `"gemini://[::1:1965]/foo"`; in
general, when the URL has more than two colons, no square brackets, and
its schemaless part contains a slash, the part before the first slash of
the schemaless part is wrapped in brackets. -/
theorem c9_ipv6_amended :
    geminiItemUrl "::1" = .ok "gemini://::1" ∧
    geminiItemUrl "gemini://::1:1965/foo" = .ok "gemini://[::1:1965]/foo" ∧
    (∀ url a b netloc rest,
      2 < countChar ':' url →
      (containsChar '[' url && containsChar ']' url) = false →
      containsChar '/' url = true →
      containsSub "://" url = true →
      splitOnSub "://" url = [a, b] →
      a ≠ "" →
      splitFirstChar '/' b = some (netloc, rest) →
      fix_ipv6_url url = .ok (a ++ "://" ++ ("[" ++ netloc ++ "]/" ++ rest))) := by
  refine ⟨rfl, rfl, ?_⟩
  intro url a b netloc rest h1 h2 h3 h4 h5 h6 h7
  simp [fix_ipv6_url, h1, h2, h3, h4, h5, h6, h7]

/-- Witness for C9's amended theorem at the concrete second example. -/
theorem c9_ipv6_amended_witness :
    fix_ipv6_url "gemini://::1:1965/foo" =
      .ok ("gemini" ++ "://" ++ ("[" ++ "::1:1965" ++ "]/" ++ "foo")) :=
  c9_ipv6_amended.2.2 "gemini://::1:1965/foo" "gemini" "::1:1965/foo"
    "::1:1965" "foo" (by decide) (by decide) (by decide) (by decide)
    (by decide) (by decide) (by decide)

/-! ### Claim C6: the cache clear operation -/

/-- Claim C6 as stated is false: `_empty_cache` unlinks the cached file
but leaves both dictionaries untouched (here, still holding their one
entry). -/
theorem c6_counterexample :
    (empty_cache cacheFix).disk = [] ∧
    (empty_cache cacheFix).cache = [("gemini://h/a", ("text/gemini", "f1"))] ∧
    (empty_cache cacheFix).cache_timestamps = [("gemini://h/a", 0)] :=
  ⟨rfl, rfl, rfl⟩

/-- Claim C6, amended: `_empty_cache` unlinks every file referenced by a
cache entry (and touches nothing else on disk), but removes no entry
from either internal map — the operation runs only during shutdown,
right before the process exits. -/
theorem c6_empty_cache_amended :
    ∀ st : CacheState,
      (empty_cache st).cache = st.cache ∧
      (empty_cache st).cache_timestamps = st.cache_timestamps ∧
      (∀ e ∈ st.cache, fileExists (empty_cache st) e.2.2 = false) ∧
      (∀ f ∈ (empty_cache st).disk, f ∈ st.disk) := by
  intro st
  refine ⟨rfl, rfl, ?_, ?_⟩
  · intro e he
    rw [Bool.eq_false_iff]
    intro hx
    simp only [empty_cache, fileExists, List.any_eq_true, List.mem_filter] at hx
    obtain ⟨f, ⟨hfd, hnone⟩, hef⟩ := hx
    rw [Bool.not_eq_true', List.any_eq_false] at hnone
    have hne := hnone e he
    simp only [decide_eq_true_eq] at hef hne
    exact hne hef.symm
  · intro f hf
    exact List.mem_of_mem_filter hf

/-- Witness for C6's amended theorem: the fixture's file is gone. -/
theorem c6_empty_cache_amended_witness :
    fileExists (empty_cache cacheFix) "f1" = false :=
  (c6_empty_cache_amended cacheFix).2.2.1
    ("gemini://h/a", ("text/gemini", "f1")) (by decide)

/-! ### Claim C8: the history update -/

/-- Claim C8 as stated is false: `_update_history` compares items with
`==`, which for `GeminiItem` is object identity, so a repeat visit to
the URL under the cursor through a freshly constructed item appends a
duplicate entry. -/
theorem c8_counterexample :
    giX0.url = giX1.url ∧
    update_history ⟨[giX0], 0⟩ giX1 = .ok ⟨[giX0, giX1], 1⟩ :=
  ⟨rfl, rfl⟩

/-- Claim C8, amended: the history is a stack with a movable cursor and
equality is object identity — nothing changes only when the very item
object under the cursor is re-visited (as on reload); otherwise the
entries after the cursor are truncated, the item is appended (even when
it denotes the same URL as the cursor entry), and the cursor moves to
the new last entry. -/
theorem c8_history_amended :
    (∀ (st : HistState) (gi : PyGI), st.history = [] →
       update_history st gi = .ok ⟨[gi], 0⟩) ∧
    (∀ (st : HistState) (gi cur : PyGI),
       st.history.get? st.hist_index = some cur → cur.oid = gi.oid →
       update_history st gi = .ok st) ∧
    (∀ (st : HistState) (gi cur : PyGI),
       st.history.get? st.hist_index = some cur → cur.oid ≠ gi.oid →
       update_history st gi =
         .ok ⟨st.history.take (st.hist_index + 1) ++ [gi],
              st.hist_index + 1⟩) := by
  refine ⟨?_, ?_, ?_⟩
  · intro st gi h
    simp [update_history, h]
  · intro st gi cur h1 h2
    have hne : st.history.isEmpty = false := by
      cases hh : st.history with
      | nil => rw [hh] at h1; simp at h1
      | cons a l => simp
    rw [List.get?_eq_getElem?] at h1
    simp [update_history, hne, h1, h2]
  · intro st gi cur h1 h2
    have hne : st.history.isEmpty = false := by
      cases hh : st.history with
      | nil => rw [hh] at h1; simp at h1
      | cons a l => simp
    have hlt : st.hist_index < st.history.length := by
      rcases List.get?_eq_some.mp h1 with ⟨h, -⟩
      exact h
    have hmin : (st.hist_index + 1) ⊓ st.history.length = st.hist_index + 1 :=
      Nat.min_eq_left (by omega)
    rw [List.get?_eq_getElem?] at h1
    simp [update_history, hne, h1, h2, hmin]

/-- Witness for C8's amended theorem: re-visiting the identical object
leaves the history unchanged. -/
theorem c8_history_amended_witness :
    update_history ⟨[giX0], 0⟩ giX0 = .ok ⟨[giX0], 0⟩ :=
  c8_history_amended.2.1 ⟨[giX0], 0⟩ giX0 giX0 rfl rfl

/-! ### Claim C2: the 6x client-certificate challenge -/

/-- Claim C2 documented against the code: in restricted mode a 6x
response is indeed a hard `UserAbortException` failure with no challenge
offered; but in non-restricted mode the challenge flow never runs —
`_handle_cert_request` reads the unbound name `status` (av98.py line
716) and raises `NameError`, so the fetch fails instead of restarting.
The spec itself flags this unbound reference as a code slip (design
note: "the source has an incorrect reference to `status` inside the
cert-challenge handler"). -/
theorem c2_cert_challenge_bug :
    (∀ meta : String,
       handle_cert_request true meta = .error .userAbortException ∧
       handle_cert_request false meta = .error .nameError) ∧
    (fetch_over_network server60 egPrompts 1 egState giAX).2 =
      .error .nameError ∧
    (fetch_over_network server60 egPrompts 1
        { egState with restricted := true } giAX).2 =
      .error .userAbortException :=
  ⟨fun _ => ⟨rfl, rfl⟩, rfl, rfl⟩

/-! ### Claim C7: TOFU row lifecycle -/

theorem tofuNoDup_head {x : TofuRow} {rest : List TofuRow}
    (h : tofuNoDupTriples (x :: rest) = true) :
    (rest.any (fun q => q.hostname = x.hostname && q.address = x.address &&
       q.fingerprint = x.fingerprint)) = false ∧
      tofuNoDupTriples rest = true := by
  simp only [tofuNoDupTriples, Bool.and_eq_true, Bool.not_eq_true'] at h
  exact h

/-- In a duplicate-free table, the `for` loop of `_validate_cert` finds
exactly the row carrying the presented fingerprint. -/
theorem tofu_find_eq (host addr fp : String) :
    ∀ (rows : List TofuRow) (r : TofuRow),
    tofuNoDupTriples rows = true → r ∈ rows →
    r.hostname = host → r.address = addr → r.fingerprint = fp →
    (rows.filter (fun q => q.hostname = host && q.address = addr)).find?
      (fun q => q.fingerprint = fp) = some r := by
  intro rows
  induction rows with
  | nil => intro r _ hr; cases hr
  | cons x rest ih =>
    intro r hnd hr h1 h2 h3
    obtain ⟨hhead, htail⟩ := tofuNoDup_head hnd
    rcases List.mem_cons.mp hr with hx | hrest
    · subst hx
      rw [List.filter_cons_of_pos (by simp [h1, h2])]
      rw [List.find?_cons]
      simp [h3]
    · by_cases hpair : (decide (x.hostname = host) && decide (x.address = addr)) = true
      · rw [List.filter_cons_of_pos (by simpa using hpair)]
        by_cases hfp : (decide (x.fingerprint = fp)) = true
        · exfalso
          simp only [Bool.and_eq_true, decide_eq_true_eq] at hpair hfp
          rw [List.any_eq_false] at hhead
          have hcontra := hhead r hrest
          simp [h1, h2, h3, hpair.1, hpair.2, hfp] at hcontra
        · rw [List.find?_cons]
          rw [Bool.not_eq_true] at hfp
          simp only [hfp]
          exact ih r htail hrest h1 h2 h3
      · rw [List.filter_cons_of_neg (by simpa using hpair)]
        exact ih r htail hrest h1 h2 h3

/-- Claim C7: first contact with a `(host, address)` pair inserts
exactly one row with `count = 1` (and no error); a later contact whose
fingerprint matches a stored row for that pair stamps `last_seen = now`
and increments `count` by exactly one; and in every case each stored row
evolves with its triple intact and `count` and `last_seen`
non-decreasing. -/
theorem c7_tofu_monotone :
    ∀ (hasCrypto : Bool) (now : Int) (accepts : Bool) (host addr fp : String)
      (st : TofuState),
    tofuNoDupTriples st.rows = true →
    (∀ r ∈ st.rows, r.last_seen ≤ now) →
    ((st.rows.filter (fun r => r.hostname = host && r.address = addr)).isEmpty
        = true →
      (tofu_record hasCrypto now accepts host addr fp st).1.rows =
          st.rows ++ [⟨host, addr, fp, now, now, 1⟩] ∧
        (tofu_record hasCrypto now accepts host addr fp st).2 = none) ∧
    (∀ i r, st.rows.get? i = some r →
      r.hostname = host → r.address = addr → r.fingerprint = fp →
      (tofu_record hasCrypto now accepts host addr fp st).1.rows.get? i =
        some { r with last_seen := now, count := r.count + 1 }) ∧
    (∀ i r, st.rows.get? i = some r →
      ∃ r',
        (tofu_record hasCrypto now accepts host addr fp st).1.rows.get? i =
            some r' ∧
          r.count ≤ r'.count ∧ r.last_seen ≤ r'.last_seen ∧
          r'.hostname = r.hostname ∧ r'.address = r.address ∧
          r'.fingerprint = r.fingerprint) := by
  intro hc now acc host addr fp st hnd hmono
  refine ⟨?_, ?_, ?_⟩
  · intro hempty
    constructor
    · simp [tofu_record, hempty]
    · simp [tofu_record, hempty]
  · intro i r hget hh ha hf
    have hmem : r ∈ st.rows := List.get?_mem hget
    have hfind := tofu_find_eq host addr fp st.rows r hnd hmem hh ha hf
    have hne : (st.rows.filter
        (fun q => q.hostname = host && q.address = addr)).isEmpty = false := by
      have hmf : r ∈ st.rows.filter
          (fun q => q.hostname = host && q.address = addr) :=
        List.mem_filter.mpr ⟨hmem, by simp [hh, ha]⟩
      rcases hq : st.rows.filter
          (fun q => q.hostname = host && q.address = addr) with _ | ⟨a, l⟩
      · rw [hq] at hmf; cases hmf
      · rw [hq]; rfl
    simp only [tofu_record, hne, Bool.false_eq_true, if_false, hfind]
    rw [List.get?_eq_getElem?] at hget
    rw [List.get?_eq_getElem?, List.getElem?_map, hget]
    simp [hh, ha, hf]
  · intro i r hget
    by_cases hempty : (st.rows.filter
        (fun q => q.hostname = host && q.address = addr)).isEmpty = true
    · refine ⟨r, ?_, le_refl _, le_refl _, rfl, rfl, rfl⟩
      simp only [tofu_record, hempty, if_true]
      have hlt : i < st.rows.length := (List.get?_eq_some.mp hget).1
      rw [List.get?_eq_getElem?] at hget ⊢
      rw [List.getElem?_append_left hlt]
      exact hget
    · rw [Bool.not_eq_true] at hempty
      rcases hfind : (st.rows.filter
          (fun q => q.hostname = host && q.address = addr)).find?
            (fun q => q.fingerprint = fp) with _ | rfound
      · -- fingerprint mismatch: rows are unchanged or extended
        have hlt : i < st.rows.length := (List.get?_eq_some.mp hget).1
        refine ⟨r, ?_, le_refl _, le_refl _, rfl, rfl, rfl⟩
        simp only [tofu_record, hempty, Bool.false_eq_true, if_false, hfind]
        rw [List.get?_eq_getElem?] at hget
        rw [List.get?_eq_getElem?]
        split
        · exact hget
        · split
          · split
            · rw [List.getElem?_append_left hlt]; exact hget
            · rw [List.getElem?_append_left hlt]; exact hget
          · exact hget
      · -- fingerprint match: rows are mapped in place
        simp only [tofu_record, hempty, Bool.false_eq_true, if_false, hfind]
        by_cases hm : r.hostname = host ∧ r.address = addr ∧ r.fingerprint = fp
        · have hmem : r ∈ st.rows := List.get?_mem hget
          have := tofu_find_eq host addr fp st.rows r hnd hmem hm.1 hm.2.1 hm.2.2
          rw [hfind] at this
          have hre : rfound = r := by injection this
          refine ⟨{ r with last_seen := now, count := rfound.count + 1 },
            ?_, ?_, ?_, rfl, rfl, rfl⟩
          · rw [List.get?_eq_getElem?] at hget
            rw [List.get?_eq_getElem?, List.getElem?_map, hget]
            simp [hm.1, hm.2.1, hm.2.2]
          · rw [hre]
            show r.count ≤ r.count + 1
            omega
          · exact hmono r hmem
        · refine ⟨r, ?_, le_refl _, le_refl _, rfl, rfl, rfl⟩
          rw [List.get?_eq_getElem?] at hget
          rw [List.get?_eq_getElem?, List.getElem?_map, hget]
          have : (decide (r.hostname = host) && decide (r.address = addr) &&
              decide (r.fingerprint = fp)) = false := by
            rcases not_and_or.mp hm with h | h
            · simp [h]
            · rcases not_and_or.mp h with h' | h' <;> simp [h']
          simp only [Option.map_some']
          congr 1
          simp only [this, Bool.false_eq_true, if_false]

/-- Witness for C7 at a concrete store: a matching re-contact bumps the
stored row from `count = 3, last_seen = 5` to `count = 4,
last_seen = 10`. -/
theorem c7_tofu_monotone_witness :
    (tofu_record false 10 true "h" "192.0.2.1" "f1" tofuFix).1.rows.get? 0 =
      some ⟨"h", "192.0.2.1", "f1", 0, 10, 4⟩ :=
  (c7_tofu_monotone false 10 true "h" "192.0.2.1" "f1" tofuFix (by decide)
      (by decide)).2.1 0 ⟨"h", "192.0.2.1", "f1", 0, 5, 3⟩ rfl rfl rfl rfl

/-! ### Claim C1: response-header framing -/

/-- `readline(limit)` never reads more than `limit` bytes. -/
theorem pyReadline_len (limit : Nat) (s : List Char) :
    utf8Len (pyReadline limit s).1 ≤ limit := by
  induction s generalizing limit with
  | nil => simp [pyReadline, utf8Len]
  | cons c rest ih =>
    rw [pyReadline]
    by_cases h1 : limit < c.utf8Size
    · simp [h1, utf8Len]
    · rw [if_neg h1]
      by_cases h2 : c = '\n'
      · subst h2
        rw [if_pos rfl]
        have h3 : ('\n').utf8Size = 1 := rfl
        simp only [utf8Len, List.map_cons, List.map_nil, List.sum_cons,
          List.sum_nil, h3]
        omega
      · rw [if_neg h2]
        have := ih (limit - c.utf8Size)
        simp only [utf8Len, List.map_cons, List.sum_cons] at *
        omega

/-- The head of a `dropWhile` residue fails the predicate. -/
theorem dropWhile_head_not (p : Char → Bool) :
    ∀ (s : List Char) x xs, s.dropWhile p = x :: xs → p x = false := by
  intro s
  induction s with
  | nil => intro x xs h; cases h
  | cons c cs ih =>
    intro x xs h
    by_cases hc : p c = true
    · rw [List.dropWhile_cons_of_pos hc] at h
      exact ih x xs h
    · rw [List.dropWhile_cons_of_neg hc] at h
      cases h
      exact Bool.not_eq_true _ |>.mp hc

/-- A stripped line has no leading whitespace left. -/
theorem pyStrip_no_leading (s : List Char) :
    (pyStrip s).dropWhile isPySpace = pyStrip s := by
  unfold pyStrip
  set u := s.dropWhile isPySpace with hu
  have hsuf : u.reverse.dropWhile isPySpace <:+ u.reverse :=
    List.dropWhile_suffix _
  have hpre : (u.reverse.dropWhile isPySpace).reverse <+: u := by
    have := (@List.reverse_prefix _ (u.reverse.dropWhile isPySpace)
      u.reverse).mpr hsuf
    simpa using this
  rcases hv : (u.reverse.dropWhile isPySpace).reverse with _ | ⟨x, xs⟩
  · simp
  · rw [hv] at hpre
    obtain ⟨t, ht⟩ := hpre
    have hx : isPySpace x = false := by
      apply dropWhile_head_not isPySpace s x (xs ++ t)
      rw [← hu, ← ht]
      rfl
    rw [List.dropWhile_cons_of_neg (by simp [hx])]

/-- A two-way `split(maxsplit=1)` of a string with no leading whitespace
decomposes it as first token, a non-empty whitespace run, and the
verbatim remainder. -/
theorem pySplit1_eq_two (s a b : List Char)
    (hnl : s.dropWhile isPySpace = s) (h : pySplit1 s = [a, b]) :
    ∃ ws, ws ≠ [] ∧ ws.all isPySpace = true ∧ s = a ++ ws ++ b := by
  unfold pySplit1 at h
  rw [hnl] at h
  by_cases h0 : s.isEmpty = true
  · rw [if_pos h0] at h; cases h
  · rw [if_neg h0] at h
    by_cases hr0 : ((s.dropWhile fun c => !isPySpace c).dropWhile
        isPySpace).isEmpty = true
    · rw [if_pos hr0] at h; cases h
    · rw [if_neg hr0] at h
      injection h with h1 h2
      injection h2 with h3 _
      have hmne : s.dropWhile (fun c => !isPySpace c) ≠ [] := by
        intro hnil
        rw [hnil] at hr0
        exact hr0 rfl
      refine ⟨(s.dropWhile fun c => !isPySpace c).takeWhile isPySpace,
        ?_, ?_, ?_⟩
      · rcases hmc : s.dropWhile (fun c => !isPySpace c) with _ | ⟨e, es⟩
        · exact absurd hmc hmne
        · have he : isPySpace e = true := by
            have h5 := dropWhile_head_not (fun c => !isPySpace c) s e es hmc
            simpa using h5
          simp [List.takeWhile_cons, he]
      · rw [List.all_eq_true]
        intro x hx
        exact List.mem_takeWhile_imp hx
      · rw [← h1, ← h3, List.append_assoc,
          List.takeWhile_append_dropWhile, List.takeWhile_append_dropWhile]

/-- Claim C1 as stated is false: a header whose status and meta are
separated by a tab — not a single space — passes validation, and the
whole fetch succeeds instead of failing with a protocol error. -/
theorem c1_counterexample :
    parseGeminiHeader "20\ttext/plain\r\nhello".data =
      .ok (("20", "text/plain"), "hello".data) ∧
    (fetch_over_network serverTab egPrompts 1 egState giAX).2 =
      .ok (giAX, "text/plain", "hello", "tmpfile0") :=
  ⟨rfl, rfl⟩

/-- Claim C1, amended: at most 1027 bytes of the first line are read
and the line must end with a newline; after stripping surrounding
whitespace it must split into a status of exactly two numeric characters
and a non-empty meta of at most 1024 characters, separated by a run of
one or more whitespace characters (not necessarily a single space); any
first line that does not end in a newline is rejected with the protocol
error. -/
theorem c1_header_framing_amended :
    (∀ stream s m rest, parseGeminiHeader stream = .ok ((s, m), rest) →
      utf8Len (pyReadline 1027 stream).1 ≤ 1027 ∧
      (pyReadline 1027 stream).1.getLast? = some '\n' ∧
      s.length = 2 ∧ s.data.all isPyNumeric = true ∧ m.length ≤ 1024 ∧
      ∃ ws, ws ≠ [] ∧ ws.all isPySpace = true ∧
        pyStrip (pyReadline 1027 stream).1 = s.data ++ ws ++ m.data) ∧
    (∀ stream, (pyReadline 1027 stream).1.getLast? ≠ some '\n' →
      parseGeminiHeader stream =
        .error (.runtimeError "Received invalid header from server!")) := by
  constructor
  · intro stream s m rest hok
    rcases hp : pyReadline 1027 stream with ⟨hline, rest0⟩
    have hlen : utf8Len hline ≤ 1027 := by
      have h5 := pyReadline_len 1027 stream
      rw [hp] at h5
      exact h5
    rw [parseGeminiHeader, hp] at hok
    simp only at hok
    split at hok
    · cases hok
    · rename_i hcond
      simp only [Bool.or_eq_true, decide_eq_true_eq, not_or, not_not]
        at hcond
      obtain ⟨hne, hlast⟩ := hcond
      rcases hsp : pySplit1 (pyStrip hline) with _ | ⟨t1, tl⟩
      · rw [hsp] at hok; cases hok
      · rcases tl with _ | ⟨t2, tl2⟩
        · rw [hsp] at hok; cases hok
        · rcases tl2 with _ | ⟨t3, tl3⟩
          · simp only [hsp] at hok
            by_cases hval : (decide (1024 < t2.length) ||
                decide (t1.length ≠ 2) || !t1.all isPyNumeric) = true
            · rw [if_pos hval] at hok; cases hok
            · rw [if_neg hval] at hok
              injection hok with hok1
              injection hok1 with hok3 hok4
              injection hok3 with hok5 hok6
              have hs : s = String.mk t1 := hok5.symm
              have hm : m = String.mk t2 := hok6.symm
              simp only [Bool.or_eq_true, not_or] at hval
              have hml : t2.length ≤ 1024 := by
                have h6 := hval.1.1
                simp only [decide_eq_true_eq, not_lt] at h6
                exact h6
              have hsl : t1.length = 2 := by
                have h6 := hval.1.2
                simp only [decide_eq_true_eq, ne_eq, not_not] at h6
                exact h6
              have hnum : t1.all isPyNumeric = true := by
                have h6 := hval.2
                rw [Bool.not_eq_true] at h6
                simpa using h6
              obtain ⟨ws, hws1, hws2, hws3⟩ :=
                pySplit1_eq_two (pyStrip hline) t1 t2
                  (pyStrip_no_leading hline) hsp
              refine ⟨hlen, hlast, ?_, ?_, ?_, ws, hws1, hws2, ?_⟩
              · rw [hs]; exact hsl
              · rw [hs]
                simpa using hnum
              · rw [hm]; exact hml
              · rw [hs, hm]
                simpa using hws3
          · rw [hsp] at hok; cases hok
  · intro stream hlast
    rcases hp : pyReadline 1027 stream with ⟨hline, rest0⟩
    rw [hp] at hlast
    rw [parseGeminiHeader, hp]
    simp only
    rw [if_pos]
    simp [hlast]

/-- Witness for C1's amended theorem on a well-formed concrete header. -/
theorem c1_header_framing_amended_witness :
    ("20" : String).length = 2 ∧
    ("20" : String).data.all isPyNumeric = true ∧
    (∃ ws, ws ≠ [] ∧ ws.all isPySpace = true ∧
      pyStrip (pyReadline 1027 "20 text/gemini\r\nhello".data).1 =
        ("20" : String).data ++ ws ++ ("text/gemini" : String).data) := by
  have h := c1_header_framing_amended.1 "20 text/gemini\r\nhello".data "20"
    "text/gemini" "hello".data rfl
  exact ⟨h.2.2.1, h.2.2.2.1, h.2.2.2.2.2⟩

/-! ### Claim C5: cache invariants -/

theorem alistGet_cons_pos {β : Type} {k : String} {e : String × β}
    {es : List (String × β)} (he : e.1 = k) :
    alistGet k (e :: es) = some e.2 := by
  rw [alistGet, List.find?_cons_of_pos _ (by simp [he])]

theorem alistGet_cons_neg {β : Type} {k : String} {e : String × β}
    {es : List (String × β)} (he : ¬e.1 = k) :
    alistGet k (e :: es) = alistGet k es := by
  rw [alistGet, List.find?_cons_of_neg _ (by simp [he])]
  rfl

theorem alistGet_isSome_iff {β : Type} (k : String) (l : List (String × β)) :
    (alistGet k l).isSome = true ↔ k ∈ l.map (fun e => e.1) := by
  induction l with
  | nil => simp [alistGet]
  | cons e es ih =>
    by_cases he : e.1 = k
    · rw [alistGet_cons_pos he]
      simp [he]
    · rw [alistGet_cons_neg he, List.map_cons, List.mem_cons, ih]
      constructor
      · exact fun h => Or.inr h
      · rintro (h | h)
        · exact absurd h.symm he
        · exact h

theorem alistGet_mem {β : Type} {k : String} {l : List (String × β)} {v : β}
    (h : alistGet k l = some v) : (k, v) ∈ l := by
  induction l with
  | nil => cases h
  | cons e es ih =>
    by_cases he : e.1 = k
    · rw [alistGet_cons_pos he] at h
      injection h with h1
      have he2 : e = (k, v) := by
        obtain ⟨a, b⟩ := e
        simp only at he h1
        rw [he, h1]
      rw [he2]
      exact List.mem_cons_self _ _
    · rw [alistGet_cons_neg he] at h
      exact List.mem_cons_of_mem _ (ih h)

theorem alistGet_filter_ne {β : Type} (k u : String) (l : List (String × β))
    (hk : k ≠ u) :
    alistGet k (l.filter (fun e => e.1 ≠ u)) = alistGet k l := by
  induction l with
  | nil => rfl
  | cons e es ih =>
    by_cases he : e.1 = u
    · rw [List.filter_cons_of_neg (by simp [he]), ih,
        alistGet_cons_neg (by rw [he]; exact Ne.symm hk)]
    · rw [List.filter_cons_of_pos (by simp [he])]
      by_cases hek : e.1 = k
      · rw [alistGet_cons_pos hek, alistGet_cons_pos hek]
      · rw [alistGet_cons_neg hek, alistGet_cons_neg hek]
        exact ih

theorem alistGet_filter_self {β : Type} (u : String) (l : List (String × β)) :
    alistGet u (l.filter (fun e => e.1 ≠ u)) = none := by
  induction l with
  | nil => rfl
  | cons e es ih =>
    by_cases he : e.1 = u
    · rw [List.filter_cons_of_neg (by simp [he])]
      exact ih
    · rw [List.filter_cons_of_pos (by simp [he]), alistGet_cons_neg he]
      exact ih

theorem alistGet_mapset_ne {β : Type} (k k' : String) (v : β)
    (hk : k' ≠ k) :
    ∀ l : List (String × β),
    alistGet k' (l.map (fun e => if e.1 = k then (k, v) else e)) =
      alistGet k' l := by
  intro l
  induction l with
  | nil => rfl
  | cons e es ih =>
    by_cases he : e.1 = k
    · rw [List.map_cons, if_pos he,
        alistGet_cons_neg (Ne.symm hk),
        alistGet_cons_neg (by rw [he]; exact Ne.symm hk)]
      exact ih
    · rw [List.map_cons, if_neg he]
      by_cases hek : e.1 = k'
      · rw [alistGet_cons_pos hek, alistGet_cons_pos hek]
      · rw [alistGet_cons_neg hek, alistGet_cons_neg hek]
        exact ih

theorem alistGet_mapset_self {β : Type} (k : String) (v : β) :
    ∀ l : List (String × β),
    (l.find? (fun e => e.1 = k)).isSome = true →
    alistGet k (l.map (fun e => if e.1 = k then (k, v) else e)) = some v := by
  intro l
  induction l with
  | nil => intro h; simp [List.find?] at h
  | cons e es ih =>
    intro h
    by_cases he : e.1 = k
    · rw [List.map_cons, if_pos he, alistGet_cons_pos (by rfl)]
    · rw [List.find?_cons_of_neg _ (by simp [he])] at h
      rw [List.map_cons, if_neg he, alistGet_cons_neg he]
      exact ih h

theorem alistGet_append_of_none {β : Type} (k : String)
    (l₁ l₂ : List (String × β)) (h : alistGet k l₁ = none) :
    alistGet k (l₁ ++ l₂) = alistGet k l₂ := by
  induction l₁ with
  | nil => rfl
  | cons e es ih =>
    by_cases he : e.1 = k
    · rw [alistGet_cons_pos he] at h
      cases h
    · rw [alistGet_cons_neg he] at h
      rw [List.cons_append, alistGet_cons_neg he]
      exact ih h

theorem alistGet_append_of_some {β : Type} {k : String} {w : β}
    (l₁ l₂ : List (String × β)) (h : alistGet k l₁ = some w) :
    alistGet k (l₁ ++ l₂) = some w := by
  induction l₁ with
  | nil => cases h
  | cons e es ih =>
    by_cases he : e.1 = k
    · rw [alistGet_cons_pos he] at h
      rw [List.cons_append, alistGet_cons_pos he]
      exact h
    · rw [alistGet_cons_neg he] at h
      rw [List.cons_append, alistGet_cons_neg he]
      exact ih h

theorem find?_none_of_not_isSome {β : Type} {k : String}
    {l : List (String × β)}
    (h : ¬(l.find? (fun e => e.1 = k)).isSome = true) :
    alistGet k l = none := by
  rw [alistGet]
  rcases hf : l.find? (fun e => e.1 = k) with _ | e
  · rw [hf]
  · rw [hf] at h
    simp at h

theorem alistGet_set_self {β : Type} (k : String) (v : β)
    (l : List (String × β)) : alistGet k (alistSet k v l) = some v := by
  unfold alistSet
  by_cases hp : (l.find? (fun e => e.1 = k)).isSome = true
  · rw [if_pos hp]
    exact alistGet_mapset_self k v l hp
  · rw [if_neg hp]
    rw [alistGet_append_of_none k l _ (find?_none_of_not_isSome hp)]
    exact alistGet_cons_pos (by rfl)

theorem alistGet_set_ne {β : Type} (k k' : String) (v : β)
    (l : List (String × β)) (hk : k' ≠ k) :
    alistGet k' (alistSet k v l) = alistGet k' l := by
  unfold alistSet
  by_cases hp : (l.find? (fun e => e.1 = k)).isSome = true
  · rw [if_pos hp]
    exact alistGet_mapset_ne k k' v hk l
  · rw [if_neg hp]
    rcases hg : alistGet k' l with _ | w
    · rw [alistGet_append_of_none k' l _ hg]
      rw [alistGet_cons_neg (by simp; exact Ne.symm hk)]
      rfl
    · exact alistGet_append_of_some l _ hg

theorem keys_mapset {β : Type} (k : String) (v : β) (l : List (String × β)) :
    (l.map (fun e => if e.1 = k then (k, v) else e)).map (fun e => e.1) =
      l.map (fun e => e.1) := by
  induction l with
  | nil => rfl
  | cons e es ih =>
    by_cases he : e.1 = k
    · simp only [List.map_cons, if_pos he, ih]
      rw [he]
    · simp only [List.map_cons, if_neg he, ih]

theorem keys_set_nodup {β : Type} (k : String) (v : β)
    (l : List (String × β)) (hnd : (l.map (fun e => e.1)).Nodup) :
    ((alistSet k v l).map (fun e => e.1)).Nodup := by
  unfold alistSet
  by_cases hp : (l.find? (fun e => e.1 = k)).isSome = true
  · rw [if_pos hp, keys_mapset]
    exact hnd
  · rw [if_neg hp, List.map_append]
    rw [List.nodup_append]
    refine ⟨hnd, List.nodup_singleton _, ?_⟩
    intro x hx hxk
    simp only [List.map_cons, List.map_nil, List.mem_singleton] at hxk
    rw [hxk] at hx
    have := (alistGet_isSome_iff k l).mpr hx
    rw [find?_none_of_not_isSome hp] at this
    cases this

theorem mem_alistSet {β : Type} {k : String} {v : β} {l : List (String × β)}
    {e : String × β} (he : e ∈ alistSet k v l) :
    e = (k, v) ∨ (e ∈ l ∧ e.1 ≠ k) := by
  unfold alistSet at he
  by_cases hp : (l.find? (fun e => e.1 = k)).isSome = true
  · rw [if_pos hp] at he
    obtain ⟨e0, he0, hfe⟩ := List.mem_map.mp he
    by_cases hk0 : e0.1 = k
    · rw [if_pos hk0] at hfe
      exact Or.inl hfe.symm
    · rw [if_neg hk0] at hfe
      exact Or.inr ⟨hfe ▸ he0, hfe ▸ hk0⟩
  · rw [if_neg hp] at he
    rcases List.mem_append.mp he with h | h
    · have hkey : e.1 ≠ k := by
        intro hek
        have : (alistGet k l).isSome = true :=
          (alistGet_isSome_iff k l).mpr (List.mem_map.mpr ⟨e, h, hek⟩)
        rw [find?_none_of_not_isSome hp] at this
        cases this
      exact Or.inr ⟨h, hkey⟩
    · simp only [List.mem_singleton] at h
      exact Or.inl h

theorem alistSet_length {β : Type} (k : String) (v : β)
    (l : List (String × β)) :
    (alistSet k v l).length = l.length ∨
      (alistSet k v l).length = l.length + 1 := by
  unfold alistSet
  by_cases hp : (l.find? (fun e => e.1 = k)).isSome = true
  · rw [if_pos hp, List.length_map]
    exact Or.inl rfl
  · rw [if_neg hp, List.length_append]
    exact Or.inr rfl

theorem filter_ne_length {β : Type} (u : String) :
    ∀ (l : List (String × β)),
    (l.map (fun e => e.1)).Nodup → (alistGet u l).isSome = true →
    (l.filter (fun e => e.1 ≠ u)).length + 1 = l.length := by
  intro l
  induction l with
  | nil => intro _ h; simp [alistGet] at h
  | cons e es ih =>
    intro hnd hget
    rw [List.map_cons, List.nodup_cons] at hnd
    by_cases he : e.1 = u
    · rw [List.filter_cons_of_neg (by simp [he])]
      have hself : es.filter (fun e => e.1 ≠ u) = es := by
        rw [List.filter_eq_self]
        intro a ha
        simp only [ne_eq, decide_not, Bool.not_eq_true', decide_eq_false_iff_not]
        intro hau
        exact hnd.1 (List.mem_map.mpr ⟨a, ha, by rw [hau, he]⟩)
      rw [hself]
      simp
    · rw [List.filter_cons_of_pos (by simp [he])]
      rw [alistGet_cons_neg he] at hget
      have hih := ih hnd.2 hget
      simp only [List.length_cons]
      omega

theorem cacheWF_validate {st : CacheState} (hwf : CacheWF st) :
    validate_cache st = true := by
  obtain ⟨h1, h2, h3, h4, h5, h6⟩ := hwf
  rw [validate_cache, Bool.and_eq_true, Bool.and_eq_true]
  refine ⟨⟨?_, ?_⟩, ?_⟩
  · rw [List.all_eq_true]
    intro e he
    exact h3 e he
  · rw [List.all_eq_true]
    intro e he
    exact h4 e he
  · rw [List.all_eq_true]
    intro e he
    exact h5 e he

theorem fileExists_iff {st : CacheState} {fn : String} :
    fileExists st fn = true ↔ ∃ g ∈ st.disk, g.1 = fn := by
  rw [fileExists, List.any_eq_true]
  simp

theorem remove_spec (url : String) (st : CacheState) (mv f : String)
    (hwf : CacheWF st) (hget : alistGet url st.cache = some (mv, f)) :
    ∃ st', remove_from_cache url st = .ok st' ∧
      st'.cache = st.cache.filter (fun e => e.1 ≠ url) ∧
      st'.cache_timestamps =
        st.cache_timestamps.filter (fun e => e.1 ≠ url) ∧
      st'.disk = st.disk.filter (fun e => e.1 ≠ f) ∧
      st'.cache_hits = st.cache_hits ∧
      CacheWF st' ∧
      st'.cache.length + 1 = st.cache.length := by
  obtain ⟨h1, h2, h3, h4, h5, h6⟩ := hwf
  have hmem : (url, (mv, f)) ∈ st.cache := alistGet_mem hget
  have htsS : (alistGet url st.cache_timestamps).isSome = true :=
    h3 _ hmem
  rcases ht : alistGet url st.cache_timestamps with _ | tv
  · rw [ht] at htsS; cases htsS
  · have hfe : fileExists st f = true := h5 _ hmem
    set st' : CacheState :=
      { cache := st.cache.filter (fun e => e.1 ≠ url),
        cache_timestamps := st.cache_timestamps.filter (fun e => e.1 ≠ url),
        disk := st.disk.filter (fun e => e.1 ≠ f),
        cache_hits := st.cache_hits } with hst'
    have hwf' : CacheWF st' := by
      refine ⟨?_, ?_, ?_, ?_, ?_, ?_⟩
      · exact (List.Sublist.map _ (List.filter_sublist _)).nodup h1
      · exact (List.Sublist.map _ (List.filter_sublist _)).nodup h2
      · intro e he
        have he2 := List.mem_filter.mp he
        have hne : e.1 ≠ url := by
          have := he2.2
          simpa using this
        show (alistGet e.1
          (st.cache_timestamps.filter (fun e => e.1 ≠ url))).isSome = true
        rw [alistGet_filter_ne _ _ _ hne]
        exact h3 _ he2.1
      · intro e he
        have he2 := List.mem_filter.mp he
        have hne : e.1 ≠ url := by
          have := he2.2
          simpa using this
        show (alistGet e.1
          (st.cache.filter (fun e => e.1 ≠ url))).isSome = true
        rw [alistGet_filter_ne _ _ _ hne]
        exact h4 _ he2.1
      · intro e he
        have he2 := List.mem_filter.mp he
        have hne : e.1 ≠ url := by
          have := he2.2
          simpa using this
        have hneF : e.2.2 ≠ f := by
          intro heq
          have hinj := List.inj_on_of_nodup_map h6
          have := hinj he2.1 hmem (by simpa using heq)
          rw [this] at hne
          exact hne rfl
        obtain ⟨g, hg, hgf⟩ := fileExists_iff.mp (h5 _ he2.1)
        apply fileExists_iff.mpr
        refine ⟨g, ?_, hgf⟩
        apply List.mem_filter.mpr
        refine ⟨hg, ?_⟩
        simp only [ne_eq, decide_not, Bool.not_eq_true', decide_eq_false_iff_not]
        rw [hgf]
        exact hneF
      · exact (List.Sublist.map _ (List.filter_sublist _)).nodup h6
    have hgetS : (alistGet url st.cache).isSome = true := by rw [hget]; rfl
    refine ⟨st', ?_, rfl, rfl, rfl, rfl, hwf', ?_⟩
    · rw [remove_from_cache, alistPop, ht, alistPop, hget]
      simp only
      rw [if_neg (not_not_intro hfe)]
      split
      · rfl
      · rename_i hcontra
        exact absurd (cacheWF_validate hwf') hcontra
    · exact filter_ne_length url st.cache h1 hgetS

theorem keys_filter_mem {β : Type} {u' u : String} {l : List (String × β)}
    (h : u' ∈ l.map (fun e => e.1)) (hne : u' ≠ u) :
    u' ∈ (l.filter (fun e => e.1 ≠ u)).map (fun e => e.1) := by
  obtain ⟨e, he, hke⟩ := List.mem_map.mp h
  apply List.mem_map.mpr
  refine ⟨e, List.mem_filter.mpr ⟨he, ?_⟩, hke⟩
  simp only [decide_eq_true_eq]
  rw [hke]
  exact hne

theorem trimLoop_spec (now : Int) :
    ∀ (pairs : List (Int × String)) (st : CacheState),
    CacheWF st →
    (pairs.map (fun p => p.2)).Nodup →
    (∀ p ∈ pairs, p.2 ∈ st.cache.map (fun e => e.1)) →
    ∃ st', trimLoop now pairs st = .ok st' ∧ CacheWF st' ∧
      st'.cache.length ≤ st.cache.length := by
  intro pairs
  induction pairs with
  | nil =>
    intro st hwf _ _
    exact ⟨st, rfl, hwf, le_refl _⟩
  | cons p rest ih =>
    intro st hwf hnd hmem
    obtain ⟨t, u⟩ := p
    rw [trimLoop]
    by_cases hstale : 180 < now - t
    · rw [if_pos hstale]
      have hu : u ∈ st.cache.map (fun e => e.1) :=
        hmem (t, u) (List.mem_cons_self _ _)
      have hS : (alistGet u st.cache).isSome = true :=
        (alistGet_isSome_iff u st.cache).mpr hu
      rcases hg : alistGet u st.cache with _ | ⟨mv, f⟩
      · rw [hg] at hS; cases hS
      · obtain ⟨st1, hrem, hc, hts, hd, hh, hwf1, hlen⟩ :=
          remove_spec u st mv f hwf hg
        rw [hrem]
        simp only [List.map_cons, List.nodup_cons] at hnd
        have hmem' : ∀ q ∈ rest, q.2 ∈ st1.cache.map (fun e => e.1) := by
          intro q hq
          have h1 := hmem q (List.mem_cons_of_mem _ hq)
          have h2 : q.2 ≠ u := by
            intro heq
            exact hnd.1 (heq ▸ List.mem_map.mpr ⟨q, hq, rfl⟩)
          rw [hc]
          exact keys_filter_mem h1 h2
        obtain ⟨st2, hloop, hwf2, hlen2⟩ := ih st1 hwf1 hnd.2 hmem'
        exact ⟨st2, hloop, hwf2, by omega⟩
    · rw [if_neg hstale]
      exact ⟨st, rfl, hwf, le_refl _⟩

theorem trim_spec (now : Int) (st : CacheState) (hwf : CacheWF st)
    (hne : st.cache ≠ []) :
    ∃ st', trim_cache now st = .ok st' ∧ CacheWF st' ∧
      st'.cache.length + 1 ≤ st.cache.length := by
  obtain ⟨h1, h2, h3, h4, h5, h6⟩ := hwf
  have hperm : List.Perm
      ((st.cache_timestamps.map (fun e => (e.2, e.1))).insertionSort lruLe)
      (st.cache_timestamps.map (fun e => (e.2, e.1))) :=
    List.perm_insertionSort lruLe _
  have hpu : (st.cache_timestamps.map (fun e => (e.2, e.1))).map
      (fun p => p.2) = st.cache_timestamps.map (fun e => e.1) := by
    rw [List.map_map]
    rfl
  have hndu : (((st.cache_timestamps.map (fun e => (e.2, e.1))).insertionSort
      lruLe).map (fun p => p.2)).Nodup := by
    apply ((List.Perm.map (fun p => p.2) hperm).symm).nodup
    rw [hpu]
    exact h2
  have htsne : st.cache_timestamps ≠ [] := by
    rcases hcache : st.cache with _ | ⟨e, es⟩
    · exact absurd hcache hne
    · have hm : e ∈ st.cache := by rw [hcache]; exact List.mem_cons_self _ _
      have := h3 e hm
      intro hnil
      rw [hnil] at this
      cases this
  rcases hsort : (st.cache_timestamps.map (fun e => (e.2, e.1))).insertionSort
      lruLe with _ | ⟨⟨t0, u0⟩, rest⟩
  · exfalso
    rw [hsort] at hperm
    have hnil : st.cache_timestamps.map (fun e => (e.2, e.1)) = [] :=
      hperm.symm.eq_nil
    rw [List.map_eq_nil_iff] at hnil
    exact htsne hnil
  · rw [hsort] at hperm hndu
    rw [trim_cache]
    simp only [hsort]
    have hmemp : ((t0, u0) : Int × String) ∈
        st.cache_timestamps.map (fun e => (e.2, e.1)) :=
      hperm.mem_iff.mp (List.mem_cons_self _ _)
    obtain ⟨e, he, hee⟩ := List.mem_map.mp hmemp
    have heu : e.1 = u0 := by
      injection hee with hee1 hee2
    have hu0S : (alistGet u0 st.cache).isSome = true := by
      have h7 := h4 e he
      rw [heu] at h7
      exact h7
    rcases hg : alistGet u0 st.cache with _ | ⟨mv, f⟩
    · rw [hg] at hu0S; cases hu0S
    · obtain ⟨st1, hrem, hc, hts, hd, hh, hwf1, hlen⟩ :=
        remove_spec u0 st mv f ⟨h1, h2, h3, h4, h5, h6⟩ hg
      simp only [hrem]
      simp only [List.map_cons, List.nodup_cons] at hndu
      have hmem' : ∀ q ∈ rest, q.2 ∈ st1.cache.map (fun e => e.1) := by
        intro q hq
        have hqp : q ∈ st.cache_timestamps.map (fun e => (e.2, e.1)) :=
          hperm.mem_iff.mp (List.mem_cons_of_mem _ hq)
        obtain ⟨e', he', hee'⟩ := List.mem_map.mp hqp
        have heq' : e'.1 = q.2 := by
          rw [← hee']
        have hqS : (alistGet q.2 st.cache).isSome = true := by
          have h7 := h4 e' he'
          rw [heq'] at h7
          exact h7
        have hqmem : q.2 ∈ st.cache.map (fun e => e.1) :=
          (alistGet_isSome_iff _ _).mp hqS
        have hqne : q.2 ≠ u0 := by
          intro heq
          exact hndu.1 (heq ▸ List.mem_map.mpr ⟨q, hq, rfl⟩)
        rw [hc]
        exact keys_filter_mem hqmem hqne
      obtain ⟨st2, hloop, hwf2, hlen2⟩ :=
        trimLoop_spec now rest st1 hwf1 hndu.2 hmem'
      simp only [hloop]
      split
      · exact ⟨st2, rfl, hwf2, by omega⟩
      · rename_i hcontra
        exact absurd (cacheWF_validate hwf2) hcontra

theorem files_set_nodup (url mime filename : String)
    (l : List (String × (String × String)))
    (hnd : (l.map (fun e => e.2.2)).Nodup)
    (hk : (l.map (fun e => e.1)).Nodup)
    (hfresh : ∀ e ∈ l, e.2.2 ≠ filename) :
    ((alistSet url (mime, filename) l).map (fun e => e.2.2)).Nodup := by
  unfold alistSet
  by_cases hp : (l.find? (fun e => e.1 = url)).isSome = true
  · rw [if_pos hp, List.map_map]
    have hnd' := (List.pairwise_map).mp hnd
    have hk' := (List.pairwise_map).mp hk
    rw [List.Nodup, List.pairwise_map]
    have hcomb := hnd'.and hk'
    apply List.Pairwise.imp_of_mem ?_ hcomb
    intro a b ha hb hab
    by_cases hau : a.1 = url <;> by_cases hbu : b.1 = url
    · exact absurd (hau.trans hbu.symm) hab.2
    · simp only [Function.comp, if_pos hau, if_neg hbu]
      intro hcontra
      exact hfresh b hb hcontra.symm
    · simp only [Function.comp, if_neg hau, if_pos hbu]
      intro hcontra
      exact hfresh a ha hcontra
    · simp only [Function.comp, if_neg hau, if_neg hbu]
      exact hab.1
  · rw [if_neg hp, List.map_append, List.nodup_append]
    refine ⟨hnd, List.nodup_singleton _, ?_⟩
    intro x hx hx2
    simp only [List.map_cons, List.map_nil, List.mem_singleton] at hx2
    obtain ⟨e, he, hef⟩ := List.mem_map.mp hx
    rw [hx2] at hef
    exact hfresh e he hef

theorem add_spec (now : Int) (url mime filename : String) (st : CacheState)
    (hinv : CacheInv st)
    (hfile : fileExists st filename = true)
    (hfresh : ∀ e ∈ st.cache, e.2.2 ≠ filename) :
    ∃ st', add_to_cache now url mime filename st = .ok st' ∧ CacheInv st' := by
  obtain ⟨⟨h1, h2, h3, h4, h5, h6⟩, hsize⟩ := hinv
  set st1 : CacheState := { st with
    cache_timestamps := alistSet url now st.cache_timestamps
    cache := alistSet url (mime, filename) st.cache } with hst1
  have hwf1 : CacheWF st1 := by
    refine ⟨?_, ?_, ?_, ?_, ?_, ?_⟩
    · exact keys_set_nodup _ _ _ h1
    · exact keys_set_nodup _ _ _ h2
    · intro e he
      rcases mem_alistSet he with he2 | ⟨he2, hne⟩
      · rw [he2]
        show (alistGet url (alistSet url now st.cache_timestamps)).isSome = true
        rw [alistGet_set_self]
        rfl
      · show (alistGet e.1 (alistSet url now st.cache_timestamps)).isSome = true
        rw [alistGet_set_ne _ _ _ _ hne]
        exact h3 e he2
    · intro e he
      rcases mem_alistSet he with he2 | ⟨he2, hne⟩
      · rw [he2]
        show (alistGet url
          (alistSet url (mime, filename) st.cache)).isSome = true
        rw [alistGet_set_self]
        rfl
      · show (alistGet e.1
          (alistSet url (mime, filename) st.cache)).isSome = true
        rw [alistGet_set_ne _ _ _ _ hne]
        exact h4 e he2
    · intro e he
      rcases mem_alistSet he with he2 | ⟨he2, _⟩
      · rw [he2]
        exact hfile
      · exact h5 e he2
    · exact files_set_nodup url mime filename st.cache h6 h1 hfresh
  have hlen1 := alistSet_length url (mime, filename) st.cache
  have hstep : add_to_cache now url mime filename st =
      (match (if 10 < st1.cache.length then trim_cache now st1
              else Except.ok st1) with
       | .error e => .error e
       | .ok st2 =>
         if validate_cache st2 then .ok st2
         else .error .assertionError) := by
    rw [add_to_cache, hst1]
  by_cases hbig : 10 < st1.cache.length
  · have hne1 : st1.cache ≠ [] := by
      intro hnil
      rw [hnil] at hbig
      simp at hbig
    obtain ⟨st2, htrim, hwf2, hlen2⟩ := trim_spec now st1 hwf1 hne1
    rw [if_pos hbig] at hstep
    simp only [htrim] at hstep
    rw [if_pos (cacheWF_validate hwf2)] at hstep
    refine ⟨st2, hstep, hwf2, ?_⟩
    have hl1 : st1.cache.length = st.cache.length ∨
        st1.cache.length = st.cache.length + 1 := hlen1
    omega
  · rw [if_neg hbig] at hstep
    simp only at hstep
    rw [if_pos (cacheWF_validate hwf1)] at hstep
    refine ⟨st1, hstep, hwf1, ?_⟩
    omega

theorem cache_retrieve_fresh (now : Int) (url : String) (st st' : CacheState)
    (mime : String) (body : Option String) (path : String)
    (h : cache_retrieve now url st = .ok (st', some (mime, body, path))) :
    ∃ t, alistGet url st.cache_timestamps = some t ∧ now - t ≤ 180 := by
  rw [cache_retrieve, is_cached] at h
  rcases hq : alistGet url st.cache with _ | v
  · rw [hq] at h
    simp at h
  · rw [hq] at h
    simp only [Option.isNone_some, Bool.false_eq_true, if_false] at h
    rcases ht : alistGet url st.cache_timestamps with _ | t
    · rw [ht] at h
      simp at h
    · rw [ht] at h
      simp only at h
      by_cases hstale : 180 < now - t
      · rw [if_pos hstale] at h
        rcases hrem : remove_from_cache url st with e | st2 <;>
          rw [hrem] at h <;> simp at h
      · exact ⟨t, rfl, by omega⟩

/-- Claim C5: given the cache invariant (equal key sets with
duplicate-free keys, all referenced files on disk, distinct filenames,
at most 10 entries), every mutating operation succeeds and re-establishes
the invariant — `_add_to_cache` for a freshly written temporary file,
`_remove_from_cache` for a present key, `_trim_cache` on a non-empty
cache — and the retrieval path (`_is_cached` followed by `_get_cached`)
never serves an entry older than 180 seconds. -/
theorem c5_cache_invariants :
    (∀ (now : Int) (url mime filename : String) (st : CacheState),
      CacheInv st → fileExists st filename = true →
      (∀ e ∈ st.cache, e.2.2 ≠ filename) →
      ∃ st', add_to_cache now url mime filename st = .ok st' ∧
        CacheInv st') ∧
    (∀ (url : String) (st : CacheState) (mv f : String),
      CacheInv st → alistGet url st.cache = some (mv, f) →
      ∃ st', remove_from_cache url st = .ok st' ∧ CacheInv st') ∧
    (∀ (now : Int) (st : CacheState),
      CacheInv st → st.cache ≠ [] →
      ∃ st', trim_cache now st = .ok st' ∧ CacheInv st') ∧
    (∀ (now : Int) (url : String) (st st' : CacheState) (mime : String)
       (body : Option String) (path : String),
      cache_retrieve now url st = .ok (st', some (mime, body, path)) →
      ∃ t, alistGet url st.cache_timestamps = some t ∧ now - t ≤ 180) := by
  refine ⟨?_, ?_, ?_, ?_⟩
  · intro now url mime filename st hinv hfile hfresh
    exact add_spec now url mime filename st hinv hfile hfresh
  · intro url st mv f hinv hget
    obtain ⟨st', hrem, _, _, _, _, hwf', hlen⟩ :=
      remove_spec url st mv f hinv.1 hget
    refine ⟨st', hrem, hwf', ?_⟩
    have := hinv.2
    omega
  · intro now st hinv hne
    obtain ⟨st', htrim, hwf', hlen⟩ := trim_spec now st hinv.1 hne
    refine ⟨st', htrim, hwf', ?_⟩
    have := hinv.2
    omega
  · intro now url st st' mime body path h
    exact cache_retrieve_fresh now url st st' mime body path h

/-- Witness for C5: adding a fresh file to the one-entry fixture cache
succeeds and preserves the invariant. -/
theorem c5_cache_invariants_witness :
    ∃ st', add_to_cache 5 "gemini://h/b" "text/plain" "f2"
        { cacheFix with disk := [("f1", "body"), ("f2", "x")] } = .ok st' ∧
      CacheInv st' :=
  c5_cache_invariants.1 5 "gemini://h/b" "text/plain" "f2"
    { cacheFix with disk := [("f1", "body"), ("f2", "x")] }
    (by decide) (by decide) (by decide)

/-! ### Engine lemmas for claims C3, C4 and C10 -/

theorem certGuardStep_id (pr : UserPrompts) (st : EngineState) (gi : PyGI)
    (h1 : st.activeCertDomains = []) (h2 : st.certHosts = []) :
    certGuardStep pr st gi = (st, none) := by
  simp [certGuardStep, h1, h2]

theorem mkGeminiItemE_url {oid : Nat} {url name : String} {gi : PyGI}
    (h : mkGeminiItemE oid url name = .ok gi) :
    geminiItemUrl url = .ok gi.url ∧ gi.name = name ∧ gi.oid = oid := by
  unfold mkGeminiItemE at h
  rcases hu : geminiItemUrl url with e | u
  · rw [hu] at h; cases h
  · rw [hu] at h
    simp only at h
    rcases hsp : urlSchemeNetlocPath u with ⟨scheme, netloc, path⟩
    rw [hsp] at h
    simp only at h
    injection h with h1
    rw [← h1]
    exact ⟨rfl, rfl, rfl⟩

/-- Claim C10: the permanent-redirect short-circuit of `_go_to_gi`
restarts the request with all-default options — the caller's opt-outs of
history updating, cache checking and handler dispatch are not forwarded.
Consequently, even a fully opted-out request whose target has a fresh
cached text/gemini copy is served from the cache (no network contact),
dispatches the handler, and extends the history. -/
theorem c10_redirect_flags :
    (∀ (server : String → List Char) (pr : UserPrompts) (fuel : Nat)
       (st : EngineState) (giS giD : PyGI) (D : String) (uh cc hd : Bool),
      giS.scheme = "gemini" →
      alistGet giS.url st.permanent_redirects = some D →
      mkGeminiItemE st.nextOid D giS.name = .ok giD →
      go_to_gi server pr (fuel + 1) st giS uh cc hd =
        go_to_gi server pr fuel { st with nextOid := st.nextOid + 1 } giD
          true true true) ∧
    (∀ (server : String → List Char) (pr : UserPrompts) (fuel : Nat)
       (st : EngineState) (giS giD : PyGI) (D : String) (c' : CacheState)
       (body path : String),
      giS.scheme = "gemini" →
      alistGet giS.url st.permanent_redirects = some D →
      mkGeminiItemE st.nextOid D giS.name = .ok giD →
      giD.scheme = "gemini" →
      alistGet giD.url st.permanent_redirects = none →
      st.optCache = true →
      cache_retrieve st.now giD.url st.cacheSt =
        .ok (c', some ("text/gemini", some body, path)) →
      st.history = [] →
      (go_to_gi server pr (fuel + 2) st giS false false false).1.sends =
          st.sends ∧
      (go_to_gi server pr (fuel + 2) st giS false false
            false).1.handlerCalls =
          st.handlerCalls ++ [("text/gemini", body)] ∧
      (go_to_gi server pr (fuel + 2) st giS false false false).1.history =
          [giD] ∧
      (go_to_gi server pr (fuel + 2) st giS false false false).2 =
          GoOutcome.done) := by
  constructor
  · intro server pr fuel st giS giD D uh cc hd hsch hmap hmk
    rw [go_to_gi]
    simp only [hsch, hmap, hmk]
    simp
  · intro server pr fuel st giS giD D c' body path hsch hmap hmk hschD hmapD
      hoc hcr hhist
    rw [go_to_gi]
    simp only [hsch, hmap, hmk]
    simp only [go_to_gi]
    simp only [hschD, hmapD, hoc, hcr, hhist, finishStep, update_history]
    simp [hschD, hcr, hhist, finishStep, update_history]

/-- Witness for C10: a fully opted-out request for a permanently
redirected URL with a cached target still dispatches the handler and
completes normally. -/
theorem c10_redirect_flags_witness :
    (go_to_gi (fun _ => []) egPrompts 2
        { egState with
          permanent_redirects := [("gemini://a/x", "gemini://b/y")],
          optCache := true,
          cacheSt := ⟨[("gemini://b/y", ("text/gemini", "f1"))],
            [("gemini://b/y", 0)], [("f1", "hello")], 0⟩ }
        giAX false false false).1.handlerCalls =
      [("text/gemini", "hello")] ∧
    (go_to_gi (fun _ => []) egPrompts 2
        { egState with
          permanent_redirects := [("gemini://a/x", "gemini://b/y")],
          optCache := true,
          cacheSt := ⟨[("gemini://b/y", ("text/gemini", "f1"))],
            [("gemini://b/y", 0)], [("f1", "hello")], 0⟩ }
        giAX false false false).2 = GoOutcome.done := by
  have h := c10_redirect_flags.2 (fun _ => []) egPrompts 0
    { egState with
      permanent_redirects := [("gemini://a/x", "gemini://b/y")],
      optCache := true,
      cacheSt := ⟨[("gemini://b/y", ("text/gemini", "f1"))],
        [("gemini://b/y", 0)], [("f1", "hello")], 0⟩ }
    giAX ⟨"gemini://b/y", "", "gemini", "b", 1965, "/y", 0⟩ "gemini://b/y"
    ⟨[("gemini://b/y", ("text/gemini", "f1"))], [("gemini://b/y", 0)],
      [("f1", "hello")], 1⟩
    "hello" "f1" rfl rfl (by rfl) rfl rfl rfl (by rfl) rfl
  exact ⟨h.2.1, h.2.2.2⟩

theorem redirectCheck_pass (pr : UserPrompts) (st : EngineState)
    (gi ngi : PyGI) (hne : ngi.url ≠ gi.url)
    (hprev : st.previous_redirectors = [])
    (hf : pr.followRedirect = true) :
    redirectCheck pr st gi ngi =
      .ok { st with previous_redirectors := [gi.url] } := by
  unfold redirectCheck
  rw [if_neg hne, hprev]
  simp only [List.contains_nil, Bool.false_eq_true, if_false,
    List.length_nil]
  rw [if_neg (by omega)]
  have hfoll : (if ngi.host ≠ gi.host then pr.followRedirect
      else if ngi.scheme ≠ gi.scheme then pr.followRedirect
      else if ¬st.optAutoFollow then pr.followRedirect
      else true) = true := by
    split
    · exact hf
    · split
      · exact hf
      · split
        · exact hf
        · rfl
  rw [hfoll]
  simp

theorem successStep_frame (st : EngineState) (gi : PyGI) (meta : String)
    (body : List Char) :
    (successStep st gi meta body).1.sends = st.sends ∧
    (successStep st gi meta body).1.previous_redirectors =
      st.previous_redirectors ∧
    (successStep st gi meta body).1.permanent_redirects =
      st.permanent_redirects ∧
    (successStep st gi meta body).1.history = st.history ∧
    (successStep st gi meta body).1.hist_index = st.hist_index := by
  simp only [successStep]
  split
  · split
    all_goals simp
  · simp

theorem finishStep_frame (st : EngineState) (gi : PyGI) (mime : String)
    (body? : Option String) (path : String) (uh hd : Bool) :
    (finishStep st gi mime body? path uh hd).1.sends = st.sends ∧
    (finishStep st gi mime body? path uh hd).1.previous_redirectors =
      st.previous_redirectors ∧
    (finishStep st gi mime body? path uh hd).1.permanent_redirects =
      st.permanent_redirects := by
  simp only [finishStep]
  repeat' split
  all_goals simp [update_history]
theorem pyStartsWith_20_1 : pyStartsWith "20" "1" = false := by decide
theorem pyStartsWith_20_3 : pyStartsWith "20" "3" = false := by decide
theorem pyStartsWith_20_4 : pyStartsWith "20" "4" = false := by decide
theorem pyStartsWith_20_5 : pyStartsWith "20" "5" = false := by decide
theorem pyStartsWith_20_6 : pyStartsWith "20" "6" = false := by decide
theorem pyStartsWith_20_2 : pyStartsWith "20" "2" = true := by decide

theorem fetch_ok20 (server : String → List Char) (pr : UserPrompts)
    (fuel : Nat) (st : EngineState) (gi : PyGI) (m2 : String)
    (b2 : List Char)
    (hcd : st.activeCertDomains = []) (hch : st.certHosts = [])
    (hca : st.certActive = false) (hh : gi.host ≠ "")
    (hp : parseGeminiHeader (server gi.url) = .ok (("20", m2), b2)) :
    fetch_over_network server pr (fuel + 1) st gi =
      successStep { st with sends := st.sends ++ [gi.url],
                            previous_redirectors := [] } gi m2 b2 := by
  rw [fetch_over_network]
  rw [certGuardStep_id pr st gi hcd hch]
  simp only [acquireStream]
  rw [if_neg hh]
  simp only [hca, hp]
  simp only [pyStartsWith_20_1, pyStartsWith_20_3, pyStartsWith_20_4,
    pyStartsWith_20_5, pyStartsWith_20_6, pyStartsWith_20_2]
  simp
theorem pyStartsWith_31_1 : pyStartsWith "31" "1" = false := by decide
theorem pyStartsWith_31_3 : pyStartsWith "31" "3" = true := by decide

theorem fetch_31_step (server : String → List Char) (pr : UserPrompts)
    (fuel : Nat) (st : EngineState) (gi ngi : PyGI) (D : String)
    (rest : List Char)
    (hcd : st.activeCertDomains = []) (hch : st.certHosts = [])
    (hca : st.certActive = false) (hh : gi.host ≠ "")
    (hprev : st.previous_redirectors = [])
    (hf : pr.followRedirect = true)
    (hp : parseGeminiHeader (server gi.url) = .ok (("31", D), rest))
    (hmk : mkGeminiItemE st.nextOid (pyUrljoin gi.url D) "" = .ok ngi)
    (hne : ngi.url ≠ gi.url) :
    fetch_over_network server pr (fuel + 1) st gi =
      fetch_over_network server pr fuel
        { st with sends := st.sends ++ [gi.url],
                  nextOid := st.nextOid + 1,
                  previous_redirectors := [gi.url],
                  permanent_redirects :=
                    alistSet gi.url ngi.url st.permanent_redirects } ngi := by
  rw [fetch_over_network]
  rw [certGuardStep_id pr st gi hcd hch]
  simp only [acquireStream]
  rw [if_neg hh]
  simp only [hca, hp]
  simp only [pyStartsWith_31_1, pyStartsWith_31_3, Bool.not_true,
    Bool.false_eq_true, if_false, if_true, not_true, ite_false, hmk]
  have hrc := redirectCheck_pass pr
    ({ st with sends := st.sends ++ [gi.url], nextOid := st.nextOid + 1, certActive := false })
    gi ngi hne (by simp [hprev]) hf
  rw [hrc]
/-- A 31 redirect from `giS` to `giD` followed by a 20 success records
`giS.url → giD.url` in the permanent-redirect map and contacts exactly
the two servers, in order. -/
theorem fetch_31_records (server : String → List Char) (pr : UserPrompts)
    (fuel : Nat) (st : EngineState) (giS giD : PyGI) (D : String)
    (restS : List Char) (m2 : String) (b2 : List Char)
    (hcd : st.activeCertDomains = []) (hch : st.certHosts = [])
    (hca : st.certActive = false)
    (hprev : st.previous_redirectors = [])
    (hhS : giS.host ≠ "") (hhD : giD.host ≠ "")
    (hf : pr.followRedirect = true)
    (hp1 : parseGeminiHeader (server giS.url) = .ok (("31", D), restS))
    (hmk : mkGeminiItemE st.nextOid (pyUrljoin giS.url D) "" = .ok giD)
    (hne : giD.url ≠ giS.url)
    (hp2 : parseGeminiHeader (server giD.url) = .ok (("20", m2), b2)) :
    alistGet giS.url
        (fetch_over_network server pr (fuel + 2) st giS).1.permanent_redirects
      = some giD.url ∧
    (fetch_over_network server pr (fuel + 2) st giS).1.sends =
      st.sends ++ [giS.url, giD.url] := by
  have h1 := fetch_31_step server pr (fuel + 1) st giS giD D restS hcd hch
    hca hhS hprev hf hp1 hmk hne
  rw [h1]
  have h2 := fetch_ok20 server pr fuel
    ({ st with sends := st.sends ++ [giS.url], nextOid := st.nextOid + 1, previous_redirectors := [giS.url], permanent_redirects := alistSet giS.url giD.url st.permanent_redirects })
    giD m2 b2 (by simp [hcd]) (by simp [hch]) (by simp [hca]) hhD hp2
  rw [h2]
  constructor
  · rw [(successStep_frame _ _ _ _).2.2.1]
    simp [alistGet_set_self]
  · rw [(successStep_frame _ _ _ _).1]
    simp
/-- A request for a permanently redirected URL contacts only the
mapped destination: the sole new entry in the request log is
`giD.url`. -/
theorem perm_redirect_contacts_target_only (server : String → List Char) (pr : UserPrompts)
    (fuel : Nat) (st : EngineState) (giS giD : PyGI) (D m2 : String)
    (b2 : List Char) (uh cc hd : Bool)
    (hsch : giS.scheme = "gemini")
    (hmap : alistGet giS.url st.permanent_redirects = some D)
    (hmk : mkGeminiItemE st.nextOid D giS.name = .ok giD)
    (hschD : giD.scheme = "gemini")
    (hmapD : alistGet giD.url st.permanent_redirects = none)
    (hoc : st.optCache = false)
    (hcd : st.activeCertDomains = []) (hch : st.certHosts = [])
    (hca : st.certActive = false) (hhD : giD.host ≠ "")
    (hp2 : parseGeminiHeader (server giD.url) = .ok (("20", m2), b2)) :
    (go_to_gi server pr (fuel + 3) st giS uh cc hd).1.sends =
      st.sends ++ [giD.url] := by
  rw [go_to_gi]
  simp only [hsch, hmap, hmk]
  simp only [go_to_gi]
  simp only [hschD, hmapD, hoc, Bool.true_and, Bool.false_eq_true, if_false, ite_false]
  have hf20 := fetch_ok20 server pr fuel
    ({ st with nextOid := st.nextOid + 1, optCache := false }) giD m2 b2
    (by simp [hcd]) (by simp [hch]) (by simp [hca]) hhD hp2
  simp only [hf20, successStep]
  simp [hschD]
  rw [(finishStep_frame _ _ _ _ _ _ _).1]
/-- Claim C4: after a 31 response redirecting source URL S to
destination D is followed, the permanent-redirect map contains S → D
(part 1, with the contacted servers being exactly S then D); every
subsequent request for S is restarted with D preserving S's display
name (part 2); and such a restarted request contacts only D's server,
never S's again (part 3). -/
theorem c4_permanent_redirect :
    (∀ (server : String → List Char) (pr : UserPrompts) (fuel : Nat)
       (st : EngineState) (giS giD : PyGI) (D : String) (restS : List Char)
       (m2 : String) (b2 : List Char),
      st.activeCertDomains = [] → st.certHosts = [] →
      st.certActive = false → st.previous_redirectors = [] →
      giS.host ≠ "" → giD.host ≠ "" → pr.followRedirect = true →
      parseGeminiHeader (server giS.url) = .ok (("31", D), restS) →
      mkGeminiItemE st.nextOid (pyUrljoin giS.url D) "" = .ok giD →
      giD.url ≠ giS.url →
      parseGeminiHeader (server giD.url) = .ok (("20", m2), b2) →
      alistGet giS.url
          (fetch_over_network server pr (fuel + 2) st
            giS).1.permanent_redirects = some giD.url ∧
      (fetch_over_network server pr (fuel + 2) st giS).1.sends =
        st.sends ++ [giS.url, giD.url]) ∧
    (∀ (server : String → List Char) (pr : UserPrompts) (fuel : Nat)
       (st : EngineState) (giS giD : PyGI) (D : String) (uh cc hd : Bool),
      giS.scheme = "gemini" →
      alistGet giS.url st.permanent_redirects = some D →
      mkGeminiItemE st.nextOid D giS.name = .ok giD →
      giD.name = giS.name ∧
      go_to_gi server pr (fuel + 1) st giS uh cc hd =
        go_to_gi server pr fuel { st with nextOid := st.nextOid + 1 } giD
          true true true) ∧
    (∀ (server : String → List Char) (pr : UserPrompts) (fuel : Nat)
       (st : EngineState) (giS giD : PyGI) (D m2 : String) (b2 : List Char)
       (uh cc hd : Bool),
      giS.scheme = "gemini" →
      alistGet giS.url st.permanent_redirects = some D →
      mkGeminiItemE st.nextOid D giS.name = .ok giD →
      giD.scheme = "gemini" →
      alistGet giD.url st.permanent_redirects = none →
      st.optCache = false →
      st.activeCertDomains = [] → st.certHosts = [] →
      st.certActive = false → giD.host ≠ "" →
      parseGeminiHeader (server giD.url) = .ok (("20", m2), b2) →
      (go_to_gi server pr (fuel + 3) st giS uh cc hd).1.sends =
        st.sends ++ [giD.url]) := by
  refine ⟨?_, ?_, ?_⟩
  · intro server pr fuel st giS giD D restS m2 b2 hcd hch hca hprev hhS hhD
      hf hp1 hmk hne hp2
    exact fetch_31_records server pr fuel st giS giD D restS m2 b2 hcd hch
      hca hprev hhS hhD hf hp1 hmk hne hp2
  · intro server pr fuel st giS giD D uh cc hd hsch hmap hmk
    refine ⟨(mkGeminiItemE_url hmk).2.1, ?_⟩
    rw [go_to_gi]
    simp only [hsch, hmap, hmk]
    simp
  · intro server pr fuel st giS giD D m2 b2 uh cc hd hsch hmap hmk hschD
      hmapD hoc hcd hch hca hhD hp2
    exact perm_redirect_contacts_target_only server pr fuel st giS giD D m2
      b2 uh cc hd hsch hmap hmk hschD hmapD hoc hcd hch hca hhD hp2

/-- Witness for C4: in scenario S3 (`gemini://a/x` answers
`31 gemini://b/y`, `gemini://b/y` answers `20 text/plain`), the fetch
records the mapping and contacts a then b; afterwards a request for
`gemini://a/x` against the recorded map contacts only `gemini://b/y`. -/
theorem c4_permanent_redirect_witness :
    (alistGet "gemini://a/x"
        (fetch_over_network s3server egPrompts 2 egState
          giAX).1.permanent_redirects = some "gemini://b/y" ∧
     (fetch_over_network s3server egPrompts 2 egState giAX).1.sends =
       ["gemini://a/x", "gemini://b/y"]) ∧
    (go_to_gi s3server egPrompts 3
        { egState with
          permanent_redirects := [("gemini://a/x", "gemini://b/y")] }
        giAX false false false).1.sends = ["gemini://b/y"] := by
  constructor
  · have h := c4_permanent_redirect.1 s3server egPrompts 0 egState giAX
      ⟨"gemini://b/y", "", "gemini", "b", 1965, "/y", 0⟩ "gemini://b/y"
      [] "text/plain" ("ok".data) rfl rfl rfl rfl (by decide) (by decide)
      rfl (by rfl) (by rfl) (by decide) (by rfl)
    exact h
  · have h := c4_permanent_redirect.2.2 s3server egPrompts 0
      { egState with
        permanent_redirects := [("gemini://a/x", "gemini://b/y")] }
      giAX ⟨"gemini://b/y", "", "gemini", "b", 1965, "/y", 0⟩
      "gemini://b/y" "text/plain" ("ok".data) false false false
      rfl (by rfl) (by rfl) rfl (by rfl) rfl rfl rfl rfl (by decide)
      (by rfl)
    exact h
theorem handle_cert_request_error (r : Bool) (m : String) :
    ∃ e, handle_cert_request r m = Except.error e := by
  unfold handle_cert_request
  split
  · exact ⟨_, rfl⟩
  · exact ⟨_, rfl⟩

theorem redirectCheck_ok_spec (pr : UserPrompts) (st st' : EngineState)
    (gi ngi : PyGI) (h : redirectCheck pr st gi ngi = .ok st') :
    ngi.url ≠ gi.url ∧
    st.previous_redirectors.contains ngi.url = false ∧
    st.previous_redirectors.length ≠ 5 ∧
    st' = { st with previous_redirectors :=
      if gi.url ∈ st.previous_redirectors then
        st.previous_redirectors
      else st.previous_redirectors ++ [gi.url] } := by
  unfold redirectCheck at h
  by_cases h1 : ngi.url = gi.url
  · simp [h1] at h
  · rw [if_neg h1] at h
    by_cases h2 : st.previous_redirectors.contains ngi.url = true
    · have h2m : ngi.url ∈ st.previous_redirectors := by simpa using h2
      simp [h2m] at h
    · rw [if_neg h2] at h
      by_cases h3 : st.previous_redirectors.length = 5
      · simp [h3] at h
      · rw [if_neg h3] at h
        by_cases hfol : (if ngi.host ≠ gi.host then pr.followRedirect
            else if ngi.scheme ≠ gi.scheme then pr.followRedirect
            else if ¬ st.optAutoFollow then pr.followRedirect
            else true) = true
        · rw [show (if ngi.host ≠ gi.host then pr.followRedirect
              else if ngi.scheme ≠ gi.scheme then pr.followRedirect
              else if ¬ st.optAutoFollow then pr.followRedirect
              else true) = true from hfol] at h
          simp only [not_true, if_false, ite_false, if_neg] at h
          refine ⟨h1, by simpa using h2, h3, ?_⟩
          simp at h
          exact h.symm
        · have hfolF := Bool.eq_false_iff.mpr hfol
          rw [hfolF] at h
          simp at h
set_option maxHeartbeats 1000000 in
theorem fetch_chain_master (server : String → List Char) (pr : UserPrompts)
    (h1x : ∀ u s m r, parseGeminiHeader (server u) = .ok ((s, m), r) →
      pyStartsWith s "1" = false) :
    ∀ (fuel : Nat) (st : EngineState) (gi : PyGI),
      st.activeCertDomains = [] → st.certHosts = [] →
      st.certActive = false → st.cacheSt.disk = [] →
      gi.url ∉ st.previous_redirectors →
      st.previous_redirectors.length ≤ 5 →
      ∃ d, (fetch_over_network server pr fuel st gi).1.sends =
          st.sends ++ d ∧
        d.Nodup ∧ (∀ u ∈ d, u ∉ st.previous_redirectors) ∧
        d.length + st.previous_redirectors.length ≤ 6 ∧
        d.length ≤ chainLen server fuel gi.url + 1 := by
  intro fuel
  induction fuel with
  | zero =>
    intro st gi _ _ _ _ _ hlen
    refine ⟨[], by simp [fetch_over_network], by simp, by simp, ?_, by simp⟩
    simp
    omega
  | succ fuel ih =>
    intro st gi hcd hch hca hdisk hnin hlen
    rw [fetch_over_network, certGuardStep_id pr st gi hcd hch]
    by_cases hhost : gi.host = ""
    · simp only [acquireStream, hhost, hdisk, if_pos]
      refine ⟨[], ?_, by simp, by simp, ?_, by simp⟩
      · simp [alistGet]
      · simp
        omega
    · simp only [acquireStream]
      rw [if_neg hhost]
      simp only [hca]
      rcases hp : parseGeminiHeader (server gi.url) with e | ⟨⟨status, meta⟩, rest⟩
      · simp only [hp]
        refine ⟨[gi.url], by simp, by simp, by simp [hnin], ?_, by simp⟩
        simp
        omega
      · simp only [hp]
        have h1 : pyStartsWith status "1" = false := h1x _ _ _ _ hp
        by_cases h3 : pyStartsWith status "3" = true
        · simp only [h3, h1, Bool.false_eq_true, Bool.not_true, not_true,
            if_false, ite_false, if_true, ite_true]
          rcases hmk : mkGeminiItemE st.nextOid (pyUrljoin gi.url meta) ""
            with e | ngi
          · refine ⟨[gi.url], by simp, by simp, by simp [hnin], ?_, by simp⟩
            simp
            omega
          · dsimp only
            rcases hrc : redirectCheck pr
                ({ st with sends := st.sends ++ [gi.url], nextOid := st.nextOid + 1, certActive := false })
                gi ngi with e | st4
            · refine ⟨[gi.url], by simp, by simp, by simp [hnin], ?_, by simp⟩
              simp
              omega
            · obtain ⟨hneq, hncont, hn5, hst4⟩ :=
                redirectCheck_ok_spec _ _ _ _ _ hrc
              subst hst4
              have hn5s : st.previous_redirectors.length ≠ 5 := by
                simpa using hn5
              have hnm : ngi.url ∉ st.previous_redirectors := by
                simpa using hncont
              have hct : redirTarget server gi.url = some ngi.url := by
                unfold redirTarget
                rw [hp]
                simp only [h3, if_true, ite_true]
                rw [(mkGeminiItemE_url hmk).1]
                rfl
              have hchain : chainLen server (fuel + 1) gi.url =
                  chainLen server fuel ngi.url + 1 := by
                rw [chainLen, hct]
              have key : ∀ Z : EngineState, Z.activeCertDomains = [] →
                  Z.certHosts = [] → Z.certActive = false →
                  Z.cacheSt.disk = [] →
                  Z.sends = st.sends ++ [gi.url] →
                  Z.previous_redirectors =
                    st.previous_redirectors ++ [gi.url] →
                  ∃ d, (fetch_over_network server pr fuel Z ngi).1.sends =
                      st.sends ++ d ∧
                    d.Nodup ∧ (∀ u ∈ d, u ∉ st.previous_redirectors) ∧
                    d.length + st.previous_redirectors.length ≤ 6 ∧
                    d.length ≤ chainLen server (fuel + 1) gi.url + 1 := by
                intro Z hZcd hZch hZca hZdisk hZsends hZprev
                obtain ⟨d', hs', hnd', hdisj', hlen6', hlenc'⟩ :=
                  ih Z ngi hZcd hZch hZca hZdisk
                    (by rw [hZprev]; simp [hnm, hneq])
                    (by rw [hZprev]; simp; omega)

                rw [hZprev] at hdisj' hlen6'
                refine ⟨gi.url :: d', ?_, ?_, ?_, ?_, ?_⟩
                · rw [hs', hZsends]
                  simp
                · refine List.nodup_cons.mpr ⟨?_, hnd'⟩
                  intro hmem
                  exact hdisj' gi.url hmem (by simp)
                · intro u hu
                  rcases List.mem_cons.mp hu with h | h
                  · subst h; exact hnin
                  · intro hc
                    exact hdisj' u h (by simp [hc])
                · simp only [List.length_cons, List.length_append,
                    List.length_singleton] at hlen6' ⊢
                  omega
                · rw [hchain]
                  simp only [List.length_cons]
                  omega
              dsimp only
              split
              · refine key _ ?_ ?_ ?_ ?_ ?_ ?_
                · exact hcd
                · exact hch
                · rfl
                · exact hdisk
                · rfl
                · dsimp only
              · refine key _ ?_ ?_ ?_ ?_ ?_ ?_
                · exact hcd
                · exact hch
                · rfl
                · exact hdisk
                · rfl
                · dsimp only
        · have h3f := Bool.eq_false_iff.mpr h3
          simp only [h3f, h1, Bool.false_eq_true, Bool.not_false,
            not_false_iff, if_false, ite_false, if_true, ite_true]
          by_cases h45 : (pyStartsWith status "4" ||
              pyStartsWith status "5") = true
          · rw [if_pos h45]
            refine ⟨[gi.url], by simp, by simp, by simp [hnin], ?_, by simp⟩
            simp
            omega
          · rw [if_neg h45]
            by_cases h6 : pyStartsWith status "6" = true
            · rw [if_pos h6]
              obtain ⟨e, he⟩ := handle_cert_request_error st.restricted meta
              rw [he]
              refine ⟨[gi.url], by simp, by simp, by simp [hnin], ?_,
                by simp⟩
              simp
              omega
            · rw [if_neg h6]
              by_cases h2 : pyStartsWith status "2" = true
              · rw [if_neg (by simp [h2])]
                refine ⟨[gi.url], ?_, by simp, by simp [hnin], ?_, by simp⟩
                · rw [(successStep_frame _ _ _ _).1]
                · simp
                  omega
              · rw [if_pos h2]
                refine ⟨[gi.url], by simp, by simp, by simp [hnin], ?_,
                  by simp⟩
                simp
                omega
theorem fetch_non3x_clears (server : String → List Char)
    (pr : UserPrompts) (fuel : Nat) (st : EngineState) (gi : PyGI)
    (status meta : String) (rest : List Char)
    (hcd : st.activeCertDomains = []) (hch : st.certHosts = [])
    (hca : st.certActive = false) (hh : gi.host ≠ "")
    (hp : parseGeminiHeader (server gi.url) = .ok ((status, meta), rest))
    (h3 : pyStartsWith status "3" = false)
    (h1 : pyStartsWith status "1" = false) :
    (fetch_over_network server pr (fuel + 1) st
      gi).1.previous_redirectors = [] := by
  rw [fetch_over_network, certGuardStep_id pr st gi hcd hch]
  simp only [acquireStream]
  rw [if_neg hh]
  simp only [hca, hp]
  simp only [h3, h1, Bool.false_eq_true, Bool.not_false, not_false_iff,
    if_false, ite_false, if_true, ite_true]
  by_cases h45 : (pyStartsWith status "4" ||
      pyStartsWith status "5") = true
  · rw [if_pos h45]
  · rw [if_neg h45]
    by_cases h6 : pyStartsWith status "6" = true
    · rw [if_pos h6]
      obtain ⟨e, he⟩ := handle_cert_request_error st.restricted meta
      rw [he]
    · rw [if_neg h6]
      by_cases h2 : pyStartsWith status "2" = true
      · rw [if_neg (by simp [h2])]
        rw [(successStep_frame _ _ _ _).2.1]
      · rw [if_pos h2]
/-- Claim C3: over a server whose statuses are never 1x, a fetch started
with an empty redirect chain makes at most `min(k, 5) + 1` requests in
total (the initial request plus at most `min(k, 5)` redirect-following
restarts, for a served 3x-chain of length `k`) and never requests the
same URL twice (part 1); the redirect acceptance check fails with the
exact redirect errors on a self-redirect (part 2), on a target already
in the chain set (part 3), and on a chain set already holding 5 entries
(part 4); on acceptance the source URL is in the chain set (part 5);
and any non-3x (and non-1x) response leaves the chain set empty
(part 6). -/
theorem c3_redirect_chain :
    (∀ (server : String → List Char) (pr : UserPrompts),
      (∀ u s m r, parseGeminiHeader (server u) = .ok ((s, m), r) →
        pyStartsWith s "1" = false) →
      ∀ (fuel : Nat) (st : EngineState) (gi : PyGI),
        st.activeCertDomains = [] → st.certHosts = [] →
        st.certActive = false → st.cacheSt.disk = [] →
        st.previous_redirectors = [] →
        ∃ d, (fetch_over_network server pr fuel st gi).1.sends =
            st.sends ++ d ∧ d.Nodup ∧
          d.length ≤ min (chainLen server fuel gi.url) 5 + 1) ∧
    (∀ (pr : UserPrompts) (st : EngineState) (gi ngi : PyGI),
      ngi.url = gi.url →
      redirectCheck pr st gi ngi =
        .error (.runtimeError "URL redirects to itself!")) ∧
    (∀ (pr : UserPrompts) (st : EngineState) (gi ngi : PyGI),
      ngi.url ≠ gi.url →
      st.previous_redirectors.contains ngi.url = true →
      redirectCheck pr st gi ngi =
        .error (.runtimeError "Caught in redirect loop!")) ∧
    (∀ (pr : UserPrompts) (st : EngineState) (gi ngi : PyGI),
      ngi.url ≠ gi.url →
      st.previous_redirectors.contains ngi.url = false →
      st.previous_redirectors.length = 5 →
      redirectCheck pr st gi ngi = .error (.runtimeError
        "Refusing to follow more than 5 consecutive redirects!")) ∧
    (∀ (pr : UserPrompts) (st st' : EngineState) (gi ngi : PyGI),
      redirectCheck pr st gi ngi = .ok st' →
      gi.url ∈ st'.previous_redirectors) ∧
    (∀ (server : String → List Char) (pr : UserPrompts) (fuel : Nat)
       (st : EngineState) (gi : PyGI) (status meta : String)
       (rest : List Char),
      st.activeCertDomains = [] → st.certHosts = [] →
      st.certActive = false → gi.host ≠ "" →
      parseGeminiHeader (server gi.url) = .ok ((status, meta), rest) →
      pyStartsWith status "3" = false →
      pyStartsWith status "1" = false →
      (fetch_over_network server pr (fuel + 1) st
        gi).1.previous_redirectors = []) := by
  refine ⟨?_, ?_, ?_, ?_, ?_, ?_⟩
  · intro server pr h1x fuel st gi hcd hch hca hdisk hprev
    obtain ⟨d, hs, hnd, _, h6, hck⟩ :=
      fetch_chain_master server pr h1x fuel st gi hcd hch hca hdisk
        (by simp [hprev]) (by simp [hprev])
    rw [hprev] at h6
    simp only [List.length_nil] at h6
    exact ⟨d, hs, hnd, by omega⟩
  · intro pr st gi ngi hself
    simp [redirectCheck, hself]
  · intro pr st gi ngi hne hcont
    unfold redirectCheck
    rw [if_neg hne, if_pos hcont]
  · intro pr st gi ngi hne hcont hfive
    unfold redirectCheck
    rw [if_neg hne, if_neg (by rw [hcont]; simp), if_pos hfive]
  · intro pr st st' gi ngi h
    obtain ⟨-, -, -, hst⟩ := redirectCheck_ok_spec _ _ _ _ _ h
    subst hst
    dsimp only
    split
    · assumption
    · simp
  · intro server pr fuel st gi status meta rest hcd hch hca hh hp h3 h1
    exact fetch_non3x_clears server pr fuel st gi status meta rest hcd hch
      hca hh hp h3 h1
/-- Witness for C3: in scenario S3 the chain-bounded fetch makes
duplicate-free requests within the bound; each redirect rejection fires
on a concrete state; acceptance records the source URL; a 20 response
empties the chain set. -/
theorem c3_redirect_chain_witness :
    (∃ d, (fetch_over_network s3server egPrompts 7 egState giAX).1.sends =
        egState.sends ++ d ∧ d.Nodup ∧
      d.length ≤ min (chainLen s3server 7 giAX.url) 5 + 1) ∧
    redirectCheck egPrompts egState giAX giAX =
      .error (.runtimeError "URL redirects to itself!") ∧
    redirectCheck egPrompts
      { egState with previous_redirectors := ["gemini://b/y"] } giAX
      ⟨"gemini://b/y", "", "gemini", "b", 1965, "/y", 0⟩ =
      .error (.runtimeError "Caught in redirect loop!") ∧
    redirectCheck egPrompts
      { egState with
        previous_redirectors := ["u1", "u2", "u3", "u4", "u5"] }
      giAX ⟨"gemini://b/y", "", "gemini", "b", 1965, "/y", 0⟩ =
      .error (.runtimeError
        "Refusing to follow more than 5 consecutive redirects!") ∧
    giAX.url ∈ ({ egState with
      previous_redirectors := ["gemini://a/x"] }
      : EngineState).previous_redirectors ∧
    (fetch_over_network s3server egPrompts 1
        { egState with previous_redirectors := ["gemini://a/x"] }
        ⟨"gemini://b/y", "", "gemini", "b", 1965, "/y", 0⟩
      ).1.previous_redirectors = [] := by
  have h1x : ∀ u s m r, parseGeminiHeader (s3server u) = .ok ((s, m), r) →
      pyStartsWith s "1" = false := by
    intro u s m r h
    unfold s3server at h
    split at h
    · simp only [show parseGeminiHeader (rawResponse "31" "gemini://b/y" "")
          = Except.ok (("31", "gemini://b/y"), ([] : List Char)) from rfl,
        Except.ok.injEq, Prod.mk.injEq] at h
      obtain ⟨⟨hs, -⟩, -⟩ := h
      subst hs
      decide
    · split at h
      · simp only [show parseGeminiHeader (rawResponse "20" "text/plain"
            "ok") = Except.ok (("20", "text/plain"), "ok".data) from rfl,
          Except.ok.injEq, Prod.mk.injEq] at h
        obtain ⟨⟨hs, -⟩, -⟩ := h
        subst hs
        decide
      · simp only [show parseGeminiHeader (rawResponse "51" "not found" "")
            = Except.ok (("51", "not found"), ([] : List Char)) from rfl,
          Except.ok.injEq, Prod.mk.injEq] at h
        obtain ⟨⟨hs, -⟩, -⟩ := h
        subst hs
        decide
  refine ⟨c3_redirect_chain.1 s3server egPrompts h1x 7 egState giAX rfl rfl
      rfl rfl rfl,
    c3_redirect_chain.2.1 egPrompts egState giAX giAX rfl,
    c3_redirect_chain.2.2.1 _ _ _ _ (by decide) rfl,
    c3_redirect_chain.2.2.2.1 _ _ _ _ (by decide) rfl rfl,
    c3_redirect_chain.2.2.2.2.1 egPrompts egState
      ({ egState with previous_redirectors := ["gemini://a/x"] }) giAX
      ⟨"gemini://b/y", "", "gemini", "b", 1965, "/y", 0⟩ (by rfl),
    c3_redirect_chain.2.2.2.2.2 s3server egPrompts 0 _ _ "20" "text/plain"
      ("ok".data) rfl rfl rfl (by decide) (by rfl) (by decide) (by decide)⟩
